import Mathlib

/-!
Verification of the GSQL compiler (lexer / parser pipeline / SQL generator)
against its natural-language specification.  The definitions below are a
shallow embedding of the TypeScript sources (`src/packages/gsql/src`): JS
`Map`s become insertion-ordered association lists, JS `Set`s become lists,
the mutable generator context becomes an explicitly threaded record, and the
generator's unbounded mixin recursion becomes a fuel-indexed function whose
`none` result models the runtime stack-overflow exception.
-/

namespace GSQL

/-! Characters used in generated SQL that we keep out of string literals. -/

def squote : Char := Char.ofNat 39

def squoteS : String := String.mk [squote]

def lbrace : Char := Char.ofNat 123

def rbrace : Char := Char.ofNat 125

/-! Insertion-ordered maps modelling JS `Map` (set overwrites in place,
new keys are appended; iteration is in insertion order). -/

def mapGet {α : Type} (m : List (String × α)) (k : String) : Option α :=
  (m.find? (fun p => p.1 == k)).map (fun p => p.2)

def mapSet {α : Type} (m : List (String × α)) (k : String) (v : α) : List (String × α) :=
  if m.any (fun p => p.1 == k) then
    m.map (fun p => if p.1 == k then (k, v) else p)
  else
    m ++ [(k, v)]

/-! Character classes, mirroring the regex classes used by the sources:
`[A-Z]`, `[a-z]`, `\d`, `\w`. -/

def isUpperB (c : Char) : Bool := decide ((Char.ofNat 65) ≤ c) && decide (c ≤ Char.ofNat 90)

def isLowerB (c : Char) : Bool := decide ((Char.ofNat 97) ≤ c) && decide (c ≤ Char.ofNat 122)

def isDigitB (c : Char) : Bool := decide ((Char.ofNat 48) ≤ c) && decide (c ≤ Char.ofNat 57)

def isWordChar (c : Char) : Bool := isUpperB c || isLowerB c || isDigitB c || c == '_'

/-! `toSnakeCase` (generator.ts): two global regex replacements followed by
`toLowerCase`.  `rep1` is `/([A-Z]+)([A-Z][a-z])/g → "$1_$2"` and `rep2` is
`/([a-z\d])([A-Z])/g → "$1_$2"`, both simulated with the JS engine's
leftmost-match, continue-after-replacement semantics. -/

def upperRunLen (s : List Char) : Nat := (s.takeWhile isUpperB).length

def rep1F : Nat → List Char → List Char
  | 0, s => s
  | _ + 1, [] => []
  | f + 1, c :: rest =>
    if isUpperB c then
      -- the maximal run of capitals starting here has length 1 + upperRunLen rest
      let m := 1 + upperRunLen rest
      match (c :: rest).drop m with
      | d :: _ =>
        if m ≥ 2 && isLowerB d then
          (c :: rest).take (m - 1) ++ '_' :: ((c :: rest).drop (m - 1)).take 1 ++
            d :: rep1F f ((c :: rest).drop (m + 1))
        else
          c :: rep1F f rest
      | [] => c :: rep1F f rest
    else
      c :: rep1F f rest

/-- Every step of the scan consumes at least one character, so fuel equal to
the input length always suffices; the fuel only makes the recursion
structural. -/
def rep1 (s : List Char) : List Char := rep1F s.length s

def rep2 (s : List Char) : List Char :=
  match s with
  | a :: b :: rest =>
    if (isLowerB a || isDigitB a) && isUpperB b then
      a :: '_' :: b :: rep2 rest
    else
      a :: rep2 (b :: rest)
  | other => other

def toSnakeCase (s : String) : String :=
  String.mk ((rep2 (rep1 s.data)).map Char.toLower)

/-! AST data model (types.ts).  `IndexDef.whereExpr` and
`PerInstanceIndexDecl.whereExpr` reflect the objects actually built by the
CST→AST visitor (parser.ts `visitIndexDef` / `visitPerInstanceIndex`), which
carry a `where` property even though the `types.ts` interfaces omit it; the
generator never reads it. -/

inductive ColumnConstraint where
  | primaryKey : ColumnConstraint
  | notNull : ColumnConstraint
  | uniqueC : ColumnConstraint
  | defaultC (value : Option String) : ColumnConstraint
  | reference (table : Option String) (column : Option String) : ColumnConstraint
  | checkC (value : Option String) : ColumnConstraint
  | onDelete (action : Option String) : ColumnConstraint
deriving DecidableEq

structure ColumnDef where
  name : String
  dataType : String
  constraints : List ColumnConstraint
deriving DecidableEq

structure IndexDef where
  columns : List String
  unique : Bool
  usingM : Option String
  whereExpr : Option String
deriving DecidableEq

structure CheckDef where
  expression : String
deriving DecidableEq

structure TriggerDef where
  name : String
  timing : String
  event : String
  forEach : String
  executeFunction : String
deriving DecidableEq

inductive SchemaBodyItem where
  | col (c : ColumnDef) : SchemaBodyItem
  | idx (i : IndexDef) : SchemaBodyItem
  | chk (c : CheckDef) : SchemaBodyItem
  | trg (t : TriggerDef) : SchemaBodyItem
deriving DecidableEq

structure SchemaDecl where
  name : String
  mixins : List String
  members : List SchemaBodyItem
  conceptScope : Option String := none
deriving DecidableEq

structure EnumDecl where
  name : String
  values : List String
  conceptScope : Option String := none
deriving DecidableEq

inductive ConceptMember where
  | schemaM (s : SchemaDecl) : ConceptMember
  | enumM (e : EnumDecl) : ConceptMember
deriving DecidableEq

structure ConceptDecl where
  name : String
  typeParams : List String
  members : List ConceptMember
deriving DecidableEq

structure TargetArg where
  tableName : String
  aliasM : Option String := none
deriving DecidableEq

structure Instantiation where
  targets : List TargetArg
  conceptName : String
  typeArgs : List TargetArg
deriving DecidableEq

structure PerInstanceIndexDecl where
  tableName : String
  columns : List String
  unique : Bool
  usingM : Option String
  whereExpr : Option String
deriving DecidableEq

inductive TopLevelDeclaration where
  | ext (name : String) : TopLevelDeclaration
  | fn (name returnType body : String) : TopLevelDeclaration
  | enumD (e : EnumDecl) : TopLevelDeclaration
  | schemaD (s : SchemaDecl) : TopLevelDeclaration
  | conceptD (c : ConceptDecl) : TopLevelDeclaration
  | inst (i : Instantiation) : TopLevelDeclaration
  | perIdx (p : PerInstanceIndexDecl) : TopLevelDeclaration
deriving DecidableEq

structure GSQLProgram where
  declarations : List TopLevelDeclaration
deriving DecidableEq

/-! Generator context (generator.ts `GeneratorContext` / `createContext`). -/

structure Ctx where
  concepts : List (String × ConceptDecl)
  schemas : List (String × SchemaDecl)
  enums : List (String × EnumDecl)
  tableToSchema : List (String × String)
  templateSubs : List (String × String)
  enumSql : List String
  tableSql : List String
  indexSql : List String
  triggerSql : List String
  extensionSql : List String
  functionSql : List String
  perInstanceIndexSql : List String
  generatedEnums : List String
  generatedTables : List String
deriving DecidableEq

def createContext : Ctx :=
  { concepts := [], schemas := [], enums := [], tableToSchema := [], templateSubs := []
    enumSql := [], tableSql := [], indexSql := [], triggerSql := [], extensionSql := []
    functionSql := [], perInstanceIndexSql := [], generatedEnums := [], generatedTables := [] }

def collectDefinitions (ast : GSQLProgram) (ctx : Ctx) : Ctx :=
  ast.declarations.foldl
    (fun c d =>
      match d with
      | .conceptD cd => { c with concepts := mapSet c.concepts cd.name cd }
      | .schemaD sd => { c with schemas := mapSet c.schemas sd.name sd }
      | .enumD ed => { c with enums := mapSet c.enums ed.name ed }
      | _ => c)
    ctx

/-! Template expansion (generator.ts `expandTemplate`, regex
`^\{([^}]+)\}(.*)$`).  `splitBrace` returns the `[^}]+` group and the rest;
the regex fails when the suffix contains a newline (`.` does not match one),
in which case the name passes through unchanged. -/

def splitBraceGo (s : List Char) (acc : List Char) : Option (List Char × List Char) :=
  match s with
  | [] => none
  | c :: rest =>
    if c = rbrace then
      if acc.isEmpty then none else some (acc.reverse, rest)
    else
      splitBraceGo rest (c :: acc)

def splitBrace (s : List Char) : Option (List Char × List Char) :=
  match s with
  | c :: rest => if c = lbrace then splitBraceGo rest [] else none
  | [] => none

def templateMatch (name : String) : Option (String × String) :=
  match splitBrace name.data with
  | some (p, suf) => if suf.contains '\n' then none else some (String.mk p, String.mk suf)
  | none => none

def lookupSub (subs : List (String × String)) (param : String) : Option String :=
  (subs.find? (fun p => p.1 == param)).map (fun p => p.2)

def expandTemplate (subs : List (String × String)) (name : String) : String :=
  match templateMatch name with
  | some (param, suffix) => ((lookupSub subs param).getD (toSnakeCase param)) ++ suffix
  | none => name

/-! Type-cast formatting (generator.ts `formatTypeCast`): the global regex
replacement `/(\w+)::(\w+)/g → "'$2'::$1"`, simulated with JS leftmost-match
semantics over the character list. -/

def hasDoubleColon (s : List Char) : Bool :=
  match s with
  | [] => false
  | [_] => false
  | a :: b :: rest => (a == ':' && b == ':') || hasDoubleColon (b :: rest)

def formatTypeCastF : Nat → List Char → List Char
  | 0, s => s
  | _ + 1, [] => []
  | f + 1, c :: rest =>
    if isWordChar c then
      let run := rest.takeWhile isWordChar
      match rest.drop run.length with
      | ':' :: ':' :: _ =>
        let rest2 := rest.drop (run.length + 2)
        let run2 := rest2.takeWhile isWordChar
        if run2.length = 0 then
          (c :: run) ++ formatTypeCastF f (rest.drop run.length)
        else
          squote :: run2 ++ squote :: ':' :: ':' :: (c :: run) ++
            formatTypeCastF f (rest2.drop run2.length)
      | _ => (c :: run) ++ formatTypeCastF f (rest.drop run.length)
    else
      c :: formatTypeCastF f rest

/-- Every step of the scan consumes at least one character, so fuel equal to
the input length always suffices; the fuel only makes the recursion
structural. -/
def formatTypeCastL (s : List Char) : List Char := formatTypeCastF s.length s

def formatTypeCast (value : String) : String :=
  if hasDoubleColon value.data then String.mk (formatTypeCastL value.data) else value

/-! Enum default formatting (generator.ts `formatEnumDefault`).  The
`already formatted` test is the full-match regex `^'[^']*'::\w+$`. -/

def isAlreadyFormatted (s : List Char) : Bool :=
  match s with
  | c :: rest =>
    if c = squote then
      let body := rest.takeWhile (fun d => !(d == squote))
      match rest.drop body.length with
      | q :: a :: b :: ty =>
        q = squote && a = ':' && b = ':' && !ty.isEmpty && ty.all isWordChar
      | _ => false
    else
      false
  | [] => false

def formatEnumDefault (value enumType : String) : String :=
  if value = "NULL" then value
  else if isAlreadyFormatted value.data then value
  else if hasDoubleColon value.data then formatTypeCast value
  else squoteS ++ value ++ squoteS ++ "::" ++ enumType

/-! Check-expression expansion (generator.ts `expandCheckExpression`):
substitute every `{param}` occurrence for each substitution in insertion
order, then apply the generic cast rewrite. -/

def expandCheckExpression (subs : List (String × String)) (expr : String) : String :=
  let result := subs.foldl
    (fun r p => r.replace (String.mk (lbrace :: p.1.data ++ [rbrace])) p.2) expr
  formatTypeCast result

/-! SQL generation helpers (generator.ts `generateEnumSql`,
`generateColumnSql`, `generateIndexSql`, `generateCheckSql`,
`generateTriggerSql`). -/

def generateEnumSql (e : EnumDecl) (ctx : Ctx) : Ctx :=
  if ctx.generatedEnums.contains e.name then ctx
  else
    let values := String.intercalate (", ") (e.values.map (fun v => squoteS ++ v ++ squoteS))
    { ctx with
      generatedEnums := ctx.generatedEnums ++ [e.name]
      enums := mapSet ctx.enums e.name e
      enumSql := ctx.enumSql ++
        ["DO $$ BEGIN\n    CREATE TYPE " ++ e.name ++ " AS ENUM (" ++ values ++
          ");\nEXCEPTION\n    WHEN duplicate_object THEN null;\nEND $$;"] }

def applyConstraint (ctx : Ctx) (col : ColumnDef) (acc : List String × List String) :
    ColumnConstraint → List String × List String
  | .primaryKey => (acc.1 ++ ["PRIMARY KEY"], acc.2)
  | .notNull => (acc.1 ++ ["NOT NULL"], acc.2)
  | .uniqueC => (acc.1 ++ ["UNIQUE"], acc.2)
  | .defaultC v =>
    let defaultValue := v.getD "NULL"
    let enumTypeName := col.dataType.toLower
    let defaultValue :=
      if (mapGet ctx.enums enumTypeName).isSome then
        formatEnumDefault defaultValue enumTypeName
      else defaultValue
    (acc.1 ++ ["DEFAULT " ++ defaultValue], acc.2)
  | .reference t c =>
    let tableName := t.getD ""
    let tableName :=
      if (mapGet ctx.tableToSchema tableName).isSome then
        (mapGet ctx.tableToSchema tableName).getD tableName
      else tableName
    (acc.1, acc.2 ++ ["REFERENCES " ++ tableName ++ "(" ++ c.getD "id" ++ ")"])
  | .checkC v =>
    (acc.1 ++ ["CHECK (" ++ expandCheckExpression ctx.templateSubs (v.getD "") ++ ")"], acc.2)
  | .onDelete a =>
    (acc.1, acc.2 ++ ["ON DELETE " ++ a.getD "NO ACTION"])

def generateColumnSql (ctx : Ctx) (col : ColumnDef) : String :=
  let name := expandTemplate ctx.templateSubs col.name
  let dataType := col.dataType.toUpper
  let acc := col.constraints.foldl (applyConstraint ctx col)
    (["    " ++ name ++ " " ++ dataType], [])
  String.intercalate (" ") (acc.1 ++ acc.2)

def generateIndexSql (ctx : Ctx) (tableName : String) (index : IndexDef) : String :=
  let expandedColumns := index.columns.map (expandTemplate ctx.templateSubs)
  let columns := String.intercalate (", ") expandedColumns
  let columnNames := String.intercalate ("_") expandedColumns
  let indexName := "idx_" ++ tableName ++ "_" ++ columnNames
  let uniqueStr := if index.unique then "UNIQUE " else ""
  let usingStr :=
    match index.usingM with
    | some u => "USING " ++ u ++ " "
    | none => ""
  "CREATE " ++ uniqueStr ++ "INDEX " ++ indexName ++ " ON " ++ tableName ++ " " ++
    usingStr ++ "(" ++ columns ++ ");"

def generateCheckSql (ctx : Ctx) (chk : CheckDef) : String :=
  "    CHECK (" ++ expandCheckExpression ctx.templateSubs chk.expression ++ ")"

def generateTriggerSql (tableName : String) (trg : TriggerDef) : String :=
  let timing := trg.timing.toUpper
  let event := trg.event.toUpper
  let forEach := if trg.forEach = "row" then "FOR EACH ROW" else "FOR EACH STATEMENT"
  "CREATE TRIGGER " ++ trg.name ++ "_" ++ tableName ++ "\n    " ++ timing ++ " " ++ event ++
    " ON " ++ tableName ++ "\n    " ++ forEach ++ " EXECUTE FUNCTION " ++
    trg.executeFunction ++ "();"

/-! Mixin resolution (generator.ts `resolveMixins`).  The TypeScript function
recurses through the schema map with no cycle guard, so it need not
terminate; `resolveMixinsFuel` is the fuel-indexed embedding — `none` means
the recursion exceeded the given depth (at runtime: a stack overflow). -/

def resolveList (f : SchemaDecl → Option (List SchemaBodyItem))
    (schemas : List (String × SchemaDecl)) : List String → Option (List SchemaBodyItem)
  | [] => some []
  | m :: ms =>
    match mapGet schemas m with
    | none => resolveList f schemas ms
    | some mx =>
      match f mx with
      | none => none
      | some l =>
        match resolveList f schemas ms with
        | none => none
        | some r => some (l ++ r)

def resolveMixinsFuel : Nat → List (String × SchemaDecl) → SchemaDecl →
    Option (List SchemaBodyItem)
  | 0, _, _ => none
  | n + 1, schemas, s =>
    (resolveList (resolveMixinsFuel n schemas) schemas s.mixins).map (fun l => l ++ s.members)

structure ResolvedSchema where
  tableName : String
  columns : List ColumnDef
  indexes : List IndexDef
  checks : List CheckDef
  triggers : List TriggerDef
deriving DecidableEq

def itemColumns (items : List SchemaBodyItem) : List ColumnDef :=
  items.filterMap (fun i => match i with | .col c => some c | _ => none)

def itemIndexes (items : List SchemaBodyItem) : List IndexDef :=
  items.filterMap (fun i => match i with | .idx x => some x | _ => none)

def itemChecks (items : List SchemaBodyItem) : List CheckDef :=
  items.filterMap (fun i => match i with | .chk c => some c | _ => none)

def itemTriggers (items : List SchemaBodyItem) : List TriggerDef :=
  items.filterMap (fun i => match i with | .trg t => some t | _ => none)

def stackOverflowMsg : String := "Maximum call stack size exceeded"

def resolveSchemaE (fuel : Nat) (ctx : Ctx) (s : SchemaDecl) (tableName : String) :
    Except String ResolvedSchema :=
  match resolveMixinsFuel fuel ctx.schemas s with
  | none => .error stackOverflowMsg
  | some items =>
    .ok { tableName := tableName, columns := itemColumns items, indexes := itemIndexes items
          checks := itemChecks items, triggers := itemTriggers items }

/-! Table generation (generator.ts `generateTableSql`). -/

def generateTableSql (resolved : ResolvedSchema) (ctx : Ctx) : Ctx :=
  if ctx.generatedTables.contains resolved.tableName then ctx
  else
    let ctx := { ctx with generatedTables := ctx.generatedTables ++ [resolved.tableName] }
    let columnsSql := resolved.columns.map (generateColumnSql ctx)
    let checksSql := resolved.checks.map (generateCheckSql ctx)
    let tableBody := String.intercalate (",\n") (columnsSql ++ checksSql)
    { ctx with
      tableSql := ctx.tableSql ++
        ["CREATE TABLE " ++ resolved.tableName ++ " (\n" ++ tableBody ++ "\n);"]
      indexSql := ctx.indexSql ++ resolved.indexes.map (generateIndexSql ctx resolved.tableName)
      triggerSql := ctx.triggerSql ++
        resolved.triggers.map (generateTriggerSql resolved.tableName) }

/-! Instantiation processing (generator.ts `processInstantiation`), split
into the named stages used by the theorems.  The TypeScript loop skips a
pair when the parameter is the empty string (falsy) or the positional
argument is missing. -/

def clearedSubs (ctx : Ctx) : Ctx := { ctx with templateSubs := [] }

def installTypeParams (ctx : Ctx) : List String → List TargetArg → Ctx
  | p :: ps, a :: args =>
    if p = "" then installTypeParams ctx ps args
    else
      installTypeParams
        { ctx with
          templateSubs := mapSet ctx.templateSubs p (a.aliasM.getD (toSnakeCase p))
          tableToSchema := mapSet ctx.tableToSchema p a.tableName }
        ps args
  | _, _ => ctx

def conceptSchemasOf (c : ConceptDecl) : List SchemaDecl :=
  c.members.filterMap (fun m => match m with | .schemaM s => some s | _ => none)

def conceptEnumsOf (c : ConceptDecl) : List EnumDecl :=
  c.members.filterMap (fun m => match m with | .enumM e => some e | _ => none)

def installMembers (acc : Ctx × List (String × TargetArg)) :
    List SchemaDecl → List TargetArg → Ctx × List (String × TargetArg)
  | sch :: schs, t :: ts =>
    let st := mapSet acc.2 sch.name t
    let ctx :=
      { acc.1 with
        tableToSchema := mapSet acc.1.tableToSchema sch.name t.tableName
        templateSubs := mapSet acc.1.templateSubs sch.name (t.aliasM.getD (toSnakeCase sch.name)) }
    installMembers (ctx, st) schs ts
  | _, _ => acc

def instSetupCtx (ctx : Ctx) (c : ConceptDecl) (d : Instantiation) :
    Ctx × List (String × TargetArg) :=
  installMembers (installTypeParams (clearedSubs ctx) c.typeParams d.typeArgs, [])
    (conceptSchemasOf c) d.targets

def genConceptTables (fuel : Nat) :
    List SchemaDecl → List (String × TargetArg) → Ctx → Except String Ctx
  | [], _, ctx => .ok ctx
  | sch :: rest, st, ctx =>
    match mapGet st sch.name with
    | none => genConceptTables fuel rest st ctx
    | some m =>
      match resolveSchemaE fuel ctx sch m.tableName with
      | .error e => .error e
      | .ok r => genConceptTables fuel rest st (generateTableSql r ctx)

def processInstantiation (fuel : Nat) (d : Instantiation) (ctx : Ctx) : Except String Ctx :=
  match mapGet ctx.concepts d.conceptName with
  | none =>
    match mapGet ctx.schemas d.conceptName with
    | none => .ok ctx
    | some schema =>
      match d.targets.head? with
      | none => .ok ctx
      | some target =>
        let tableName := target.tableName
        let ctx := { ctx with tableToSchema := mapSet ctx.tableToSchema schema.name tableName }
        match resolveSchemaE fuel ctx schema tableName with
        | .error e => .error e
        | .ok resolved => .ok (generateTableSql resolved ctx)
  | some concept =>
    let setup := instSetupCtx ctx concept d
    let ctx4 := (conceptEnumsOf concept).foldl (fun c e => generateEnumSql e c) setup.1
    genConceptTables fuel (conceptSchemasOf concept) setup.2 ctx4

/-! Per-instance index processing (generator.ts `processPerInstanceIndex`,
second revision): it rebuilds an `IndexDef` carrying only `columns`,
`unique` and `using` — the parsed `where` clause is not copied — and routes
it through `generateIndexSql`, which renders no WHERE part. -/

def processPerInstanceIndex (p : PerInstanceIndexDecl) (ctx : Ctx) : Ctx :=
  let indexDef : IndexDef :=
    { columns := p.columns, unique := p.unique, usingM := p.usingM, whereExpr := none }
  { ctx with
    perInstanceIndexSql := ctx.perInstanceIndexSql ++ [generateIndexSql ctx p.tableName indexDef] }

/-! Declaration dispatch and final assembly (generator.ts
`processDeclaration`, `generate`). -/

def processDeclaration (fuel : Nat) (ctx : Ctx) : TopLevelDeclaration → Except String Ctx
  | .ext name =>
    .ok { ctx with
      extensionSql := ctx.extensionSql ++
        ["CREATE EXTENSION IF NOT EXISTS \"" ++ name ++ "\";"] }
  | .fn name _returnType body =>
    .ok { ctx with
      functionSql := ctx.functionSql ++
        ["CREATE OR REPLACE FUNCTION " ++ name ++ "()\nRETURNS TRIGGER AS $$\nBEGIN\n    " ++
          body ++ "\nEND;\n$$ LANGUAGE plpgsql;"] }
  | .enumD e => .ok (generateEnumSql e ctx)
  | .schemaD s => .ok { ctx with schemas := mapSet ctx.schemas s.name s }
  | .conceptD _ => .ok ctx
  | .inst d => processInstantiation fuel d ctx
  | .perIdx p => .ok (processPerInstanceIndex p ctx)

def processAll (fuel : Nat) (ctx : Ctx) : List TopLevelDeclaration → Except String Ctx
  | [] => .ok ctx
  | d :: ds =>
    match processDeclaration fuel ctx d with
    | .error e => .error e
    | .ok ctx2 => processAll fuel ctx2 ds

/-! Substring utilities modelling `String.prototype.includes` and the
`/CREATE TABLE (\w+)/` match used during final assembly. -/

def startsWithL : List Char → List Char → Bool
  | [], _ => true
  | _ :: _, [] => false
  | p :: ps, c :: cs => p == c && startsWithL ps cs

def isSubstring (pat : List Char) : List Char → Bool
  | [] => pat.isEmpty
  | c :: rest => startsWithL pat (c :: rest) || isSubstring pat rest

def tableNameOf : List Char → Option (List Char)
  | [] => none
  | c :: rest =>
    let s := c :: rest
    if startsWithL ("CREATE TABLE ").data s then
      let after := s.drop 13
      let run := after.takeWhile isWordChar
      if run.isEmpty then tableNameOf rest else some run
    else tableNameOf rest

def tableWithIndexes (ctx : Ctx) : List String :=
  ctx.tableSql.foldl
    (fun acc table =>
      let acc := if table = "" then acc else acc ++ [table]
      match tableNameOf table.data with
      | none => acc
      | some nm =>
        let nmS := String.mk nm
        let acc := acc ++
          ctx.indexSql.filter (fun i => isSubstring (" ON " ++ nmS ++ " ").data i.data)
        acc ++ ctx.triggerSql.filter (fun t => isSubstring (" ON " ++ nmS).data t.data))
    []

def assemble (ctx : Ctx) : String :=
  let sections : List String :=
    (if ctx.extensionSql.isEmpty then [] else [String.intercalate ("\n\n") ctx.extensionSql]) ++
    (if ctx.functionSql.isEmpty then [] else [String.intercalate ("\n\n") ctx.functionSql]) ++
    (if ctx.enumSql.isEmpty then [] else [String.intercalate ("\n\n") ctx.enumSql]) ++
    (let twi := tableWithIndexes ctx
     if twi.isEmpty then [] else [String.intercalate ("\n\n") twi]) ++
    (if ctx.perInstanceIndexSql.isEmpty then []
     else [String.intercalate ("\n\n") ctx.perInstanceIndexSql])
  "-- Generated SQL from Schema DSL\n\n" ++ String.intercalate ("\n\n") sections ++ "\n"

def generate (fuel : Nat) (ast : GSQLProgram) : Except String String :=
  let ctx := collectDefinitions ast createContext
  match processAll fuel ctx ast.declarations with
  | .error e => .error e
  | .ok ctx2 => .ok (assemble ctx2)

/-! Compile entry point (compiler.ts `compile`).  The lexer/parser stage is
abstracted as the given `ParseResult`; the claims settled against `compile`
concern only the branching after the parse call, which is embedded verbatim.
A `generate` exception corresponds to the `Except.error` case. -/

structure SourcePos where
  line : Nat
  column : Nat
  offset : Nat
deriving DecidableEq

structure SourceLoc where
  startP : SourcePos
  endP : SourcePos
deriving DecidableEq

structure CompileError where
  message : String
  severity : String
  location : Option SourceLoc := none
deriving DecidableEq

structure ParseResult where
  ast : Option GSQLProgram
  errors : List CompileError
deriving DecidableEq

structure CompileResult where
  success : Bool
  sql : Option String
  errors : List CompileError
  ast : Option GSQLProgram
deriving DecidableEq

def compileWithParse (fuel : Nat) (parseResult : ParseResult) : CompileResult :=
  if parseResult.errors.length > 0 then
    { success := false, sql := none, errors := parseResult.errors, ast := parseResult.ast }
  else
    match parseResult.ast with
    | none =>
      { success := false, sql := none
        errors := [{ message := "Failed to parse source code", severity := "error" }]
        ast := none }
    | some ast =>
      match generate fuel ast with
      | .ok sql => { success := true, sql := some sql, errors := [], ast := some ast }
      | .error msg =>
        { success := false, sql := none
          errors := [{ message := "Code generation failed: " ++ msg, severity := "error" }]
          ast := some ast }

def runBatch (fuel : Nat) (inputs : List ParseResult) : List CompileResult :=
  inputs.map (compileWithParse fuel)

/-! Lexer model (lexer.ts).  Chevrotain tries the token patterns in the
order of `allTokens`; the first pattern that matches at the current position
wins, except that a token declaring `longer_alt: Identifier` is reclassified
as an `Identifier` when the identifier pattern matches a strictly longer
span.  Each pattern below is the regex from `createToken`. -/

inductive TokenPat where
  | kw (text : String) (ci : Bool) : TokenPat
  | identP : TokenPat
  | templateIdentP : TokenPat
  | stringLitP : TokenPat
  | numberLitP : TokenPat
  | boolLitP : TokenPat
  | dpP : TokenPat
  | punct (text : String) : TokenPat
  | wsP : TokenPat
  | lineCommentP : TokenPat
  | blockCommentP : TokenPat
deriving DecidableEq

structure TokenEntry where
  name : String
  pat : TokenPat
  longerAlt : Bool
deriving DecidableEq

def isIdStart (c : Char) : Bool := isLowerB c || isUpperB c || c == '_'

def isIdChar (c : Char) : Bool := isIdStart c || isDigitB c

def identLen (s : List Char) : Option Nat :=
  match s with
  | c :: rest => if isIdStart c then some ((rest.takeWhile isIdChar).length + 1) else none
  | [] => none

def lowerEqCI (a b : Char) : Bool := a.toLower == b.toLower

def startsWithCI : List Char → List Char → Bool
  | [], _ => true
  | _ :: _, [] => false
  | p :: ps, c :: cs => lowerEqCI p c && startsWithCI ps cs

def isJsWs (c : Char) : Bool :=
  c == ' ' || c == '\t' || c == '\n' || c == '\r' || c == Char.ofNat 11 || c == Char.ofNat 12

def templateIdentLen (s : List Char) : Option Nat :=
  match s with
  | c :: rest =>
    if c = lbrace then
      match identLen rest with
      | some n => if (rest.drop n).head? = some rbrace then some (n + 2) else none
      | none => none
    else none
  | [] => none

def stringBodyLen : List Char → Option Nat
  | [] => none
  | c :: rest =>
    if c = squote then some 1
    else if c = '\\' then
      match rest with
      | d :: rest2 => if d = '\n' then none else (stringBodyLen rest2).map (fun n => n + 2)
      | [] => none
    else (stringBodyLen rest).map (fun n => n + 1)

def stringLitLen (s : List Char) : Option Nat :=
  match s with
  | c :: rest => if c = squote then (stringBodyLen rest).map (fun n => n + 1) else none
  | [] => none

def digitRunLen (s : List Char) : Nat := (s.takeWhile isDigitB).length

def numberLitBody (neg : Nat) (rest : List Char) : Option Nat :=
  let d := digitRunLen rest
  if d = 0 then none
  else
    match rest.drop d with
    | c :: r2 =>
      if c = '.' then
        let f := digitRunLen r2
        if f = 0 then some (neg + d) else some (neg + d + 1 + f)
      else some (neg + d)
    | [] => some (neg + d)

def numberLitLen (s : List Char) : Option Nat :=
  match s with
  | c :: r => if c = '-' then numberLitBody 1 r else numberLitBody 0 (c :: r)
  | [] => numberLitBody 0 []

def boolLitLen (s : List Char) : Option Nat :=
  if startsWithL ("true").data s then some 4
  else if startsWithL ("false").data s then some 5
  else none

def dpLen (s : List Char) : Option Nat :=
  if startsWithCI ("double").data s then
    let rest := s.drop 6
    let w := (rest.takeWhile isJsWs).length
    if w = 0 then none
    else if startsWithCI ("precision").data (rest.drop w) then some (6 + w + 9)
    else none
  else none

def wsLen (s : List Char) : Option Nat :=
  let n := (s.takeWhile isJsWs).length
  if n = 0 then none else some n

def lineCommentLen (s : List Char) : Option Nat :=
  if startsWithL ['/', '/'] s then
    some (2 + ((s.drop 2).takeWhile (fun c => !(c == '\n'))).length)
  else none

def blockCommentEnd : List Char → Option Nat
  | '*' :: '/' :: _ => some 2
  | _ :: rest => (blockCommentEnd rest).map (fun n => n + 1)
  | [] => none

def blockCommentLen (s : List Char) : Option Nat :=
  if startsWithL ['/', '*'] s then (blockCommentEnd (s.drop 2)).map (fun n => n + 2)
  else none

def matchLen : TokenPat → List Char → Option Nat
  | .kw t ci, s =>
    if (if ci then startsWithCI t.data s else startsWithL t.data s) then some t.data.length
    else none
  | .identP, s => identLen s
  | .templateIdentP, s => templateIdentLen s
  | .stringLitP, s => stringLitLen s
  | .numberLitP, s => numberLitLen s
  | .boolLitP, s => boolLitLen s
  | .dpP, s => dpLen s
  | .punct t, s => if startsWithL t.data s then some t.data.length else none
  | .wsP, s => wsLen s
  | .lineCommentP, s => lineCommentLen s
  | .blockCommentP, s => blockCommentLen s

/-! The token table, transcribed in the order of `allTokens` (lexer.ts
lines 524-624).  Every keyword and data-type entry carries
`longer_alt: Identifier`, as do `BooleanLiteral` and `NullLiteral`. -/

def kwPairs : List (String × String) :=
  [("Concept", "concept"), ("Schema", "schema"), ("Mixin", "mixin"), ("Enum", "enum"),
   ("Extension", "extension"), ("Function", "function"), ("Func", "func"),
   ("Trigger", "trigger"), ("Index", "index"), ("Check", "check"), ("Before", "before"),
   ("After", "after"), ("Ondelete", "ondelete"), ("On", "on"), ("Each", "each"),
   ("Row", "row"), ("Statement", "statement"), ("Execute", "execute"), ("Unique", "unique"),
   ("Gin", "gin"), ("Gist", "gist"), ("Btree", "btree"), ("Hash", "hash"), ("Pkey", "pkey"),
   ("Nonull", "nonull"), ("Default", "default"), ("Ref", "ref"), ("SetDefault", "setdefault"),
   ("SetNull", "setnull"), ("Cascade", "cascade"), ("Restrict", "restrict"),
   ("NoAction", "noaction"), ("Update", "update"), ("Insert", "insert"), ("Delete", "delete"),
   ("Return", "return"), ("New", "NEW"), ("Old", "OLD")]

def dtPairs : List (String × String) :=
  [("Timestamptz", "timestamptz"), ("Timestamp", "timestamp"), ("BigSerial", "bigserial"),
   ("Serial", "serial"), ("SmallInt", "smallint"), ("Bigint", "bigint"),
   ("Integer", "integer"), ("Varchar", "varchar"), ("Char", "char"), ("Text", "text"),
   ("Boolean", "boolean"), ("Date", "date"), ("Time", "time"), ("Jsonb", "jsonb"),
   ("Json", "json"), ("Uuid", "uuid"), ("Inet", "inet"), ("Citext", "citext"),
   ("Decimal", "decimal"), ("Numeric", "numeric"), ("Real", "real"), ("Bytea", "bytea")]

def kwEntries : List TokenEntry :=
  kwPairs.map (fun p => { name := p.1, pat := .kw p.2 false, longerAlt := true })

def dtEntries : List TokenEntry :=
  { name := "DoublePrecision", pat := .dpP, longerAlt := true } ::
    dtPairs.map (fun p => { name := p.1, pat := .kw p.2 true, longerAlt := true })

def punctPairs : List (String × String) :=
  [("LBrace", String.mk [lbrace]), ("RBrace", String.mk [rbrace]), ("LParen", "("),
   ("RParen", ")"), ("LBracket", "["), ("RBracket", "]"), ("LAngle", "<"), ("RAngle", ">"),
   ("Semicolon", ";"), ("Comma", ","), ("Dot", "."), ("Equals", "=")]

def punctEntries : List TokenEntry :=
  punctPairs.map (fun p => { name := p.1, pat := .punct p.2, longerAlt := false })

def leadEntries : List TokenEntry :=
  [{ name := "WhiteSpace", pat := .wsP, longerAlt := false },
   { name := "LineComment", pat := .lineCommentP, longerAlt := false },
   { name := "BlockComment", pat := .blockCommentP, longerAlt := false },
   { name := "Arrow", pat := .punct "->", longerAlt := false },
   { name := "DoubleColon", pat := .punct "::", longerAlt := false }]

def litEntries : List TokenEntry :=
  [{ name := "StringLiteral", pat := .stringLitP, longerAlt := false },
   { name := "NumberLiteral", pat := .numberLitP, longerAlt := false },
   { name := "BooleanLiteral", pat := .boolLitP, longerAlt := true },
   { name := "NullLiteral", pat := .kw "null" true, longerAlt := true }]

def idEntries : List TokenEntry :=
  [{ name := "TemplateIdentifier", pat := .templateIdentP, longerAlt := false },
   { name := "Identifier", pat := .identP, longerAlt := false }]

def allTokensM : List TokenEntry :=
  leadEntries ++ kwEntries ++ dtEntries ++ litEntries ++ idEntries ++ punctEntries

def scanEntries (s : List Char) : List TokenEntry → Option (String × Nat)
  | [] => none
  | e :: es =>
    match matchLen e.pat s with
    | none => scanEntries s es
    | some n =>
      if e.longerAlt then
        match identLen s with
        | some m => if n < m then some ("Identifier", m) else some (e.name, n)
        | none => some (e.name, n)
      else some (e.name, n)

def nextToken (s : List Char) : Option (String × Nat) := scanEntries s allTokensM

def isIdentWord (w : List Char) : Bool :=
  match w with
  | c :: rest => isIdStart c && rest.all isIdChar
  | [] => false

/-! Decidable side condition for the amended C9 claim: does some pattern
placed before (or equal in kind to) a keyword fully cover the word?  This is
exactly the situation where the token keeps its keyword classification. -/

def fullPatternMatch (w : List Char) : Bool :=
  allTokensM.any (fun e => !(e.pat == TokenPat.identP) && matchLen e.pat w == some w.length)

def properPrefixKw (w : List Char) : Bool :=
  (kwEntries ++ dtEntries).any
    (fun e =>
      match matchLen e.pat w with
      | some n => decide (n < w.length)
      | none => false)

/-! Template names such as `{Target}_id`, built without brace literals. -/

def mkTemplateName (param suffix : String) : String :=
  String.mk (lbrace :: param.data ++ rbrace :: suffix.data)

/-! Concrete example data used by the witnesses and counterexamples. -/

def perIdxC1 : PerInstanceIndexDecl :=
  { tableName := "questions", columns := ["assessment_id", "position"], unique := true
    usingM := none, whereExpr := some "deleted_at is null" }

def progC1 : GSQLProgram := { declarations := [.perIdx perIdxC1] }

def sqlC1 : String :=
  "-- Generated SQL from Schema DSL\n\nCREATE UNIQUE INDEX idx_questions_assessment_id_position ON questions (assessment_id, position);\n"

def cycSchemaA : SchemaDecl := { name := "A", mixins := ["A"], members := [] }

def cycSchemas : List (String × SchemaDecl) := [("A", cycSchemaA)]

def cycProg : GSQLProgram :=
  { declarations := [.schemaD cycSchemaA,
      .inst { targets := [{ tableName := "a" }], conceptName := "A", typeArgs := [] }] }

def cycPr : ParseResult := { ast := some cycProg, errors := [] }

def tsCol : ColumnDef := { name := "created_at", dataType := "timestamptz", constraints := [] }

def idCol : ColumnDef := { name := "id", dataType := "serial", constraints := [.primaryKey] }

def tsSchema : SchemaDecl := { name := "Timestamps", mixins := [], members := [.col tsCol] }

def usersMixSchema : SchemaDecl :=
  { name := "Users", mixins := ["Timestamps"], members := [.col idCol] }

def mixSchemas : List (String × SchemaDecl) :=
  [("Timestamps", tsSchema), ("Users", usersMixSchema)]

def exRank : String → Nat := fun k => if k = "Users" then 1 else 0

def annSchema : SchemaDecl :=
  { name := "Announcements", mixins := []
    members := [.col { name := mkTemplateName "Target" "_id", dataType := "integer"
                       constraints := [.reference (some "Target") (some "id")] }] }

def annConcept : ConceptDecl :=
  { name := "Announcing", typeParams := ["Target"], members := [.schemaM annSchema] }

def exInstTarget : Instantiation :=
  { targets := [{ tableName := "exam_announcements" }], conceptName := "Announcing"
    typeArgs := [{ tableName := "exams", aliasM := some "examLOL" }] }

def authConcept : ConceptDecl :=
  { name := "Authored", typeParams := ["Author"], members := [.schemaM annSchema] }

def exInstAuthor : Instantiation :=
  { targets := [{ tableName := "announcements" }], conceptName := "Authored"
    typeArgs := [{ tableName := "authors" }] }

def exCtx5 : Ctx := { createContext with schemas := [("Posts", tsSchema)] }

def exInst5 : Instantiation :=
  { targets := [{ tableName := "t" }], conceptName := "Ghost", typeArgs := [] }

def exCtx10 : Ctx :=
  { createContext with
    schemas := [("S", tsSchema)]
    templateSubs := [("Target", "post")] }

def exInst10 : Instantiation :=
  { targets := [{ tableName := "stamps" }], conceptName := "S", typeArgs := [] }

def exRes10 : Ctx := (processInstantiation 1 exInst10 exCtx10).toOption.getD createContext

/-! Helper lemmas. -/

theorem generateTableSql_templateSubs (r : ResolvedSchema) (c : Ctx) :
    (generateTableSql r c).templateSubs = c.templateSubs := by
  unfold generateTableSql
  split <;> rfl

/-- C1: the claim says a `PerInstanceIndex` with a `where` clause renders a
`WHERE (<expr>)` part.  The generator drops the parsed clause: here the
declaration carries `where (deleted_at is null)`, yet the emitted statement
is exactly `CREATE UNIQUE INDEX idx_questions_assessment_id_position ON
questions (assessment_id, position);` with no WHERE anywhere in the output,
contradicting the repository's own test suite. -/
theorem perInstanceIndex_where_dropped :
    perIdxC1.whereExpr = some "deleted_at is null" ∧
    generate 1 progC1 = .ok sqlC1 ∧
    isSubstring ("WHERE").data sqlC1.data = false := by
  refine ⟨rfl, rfl, by decide⟩

/-- C3: when the parse stage reports no errors and produces an AST but the
generation pass fails, `compile` returns `success = false` with the AST
still attached and exactly one synthetic error whose message is
`"Code generation failed: "` followed by the underlying failure text. -/
theorem compile_wraps_generation_failure (fuel : Nat) (pr : ParseResult) (ast : GSQLProgram)
    (msg : String) (he : pr.errors = []) (ha : pr.ast = some ast)
    (hg : generate fuel ast = .error msg) :
    compileWithParse fuel pr =
      { success := false, sql := none
        errors := [{ message := "Code generation failed: " ++ msg, severity := "error"
                     location := none }]
        ast := some ast } := by
  simp [compileWithParse, he, ha, hg]

theorem compile_wraps_generation_failure_witness :
    cycPr.errors = [] ∧ generate 1 cycProg = .error stackOverflowMsg ∧
    compileWithParse 1 cycPr =
      { success := false, sql := none
        errors := [{ message := "Code generation failed: " ++ stackOverflowMsg
                     severity := "error", location := none }]
        ast := some cycProg } :=
  ⟨rfl, rfl, compile_wraps_generation_failure 1 cycPr cycProg stackOverflowMsg rfl rfl rfl⟩

/-- C5: an `Instantiation` whose `conceptName` is neither a collected
concept nor a collected schema is a silent no-op: the generator context is
returned unchanged and no error is raised. -/
theorem processInstantiation_unknown_noop (fuel : Nat) (d : Instantiation) (ctx : Ctx)
    (hc : mapGet ctx.concepts d.conceptName = none)
    (hs : mapGet ctx.schemas d.conceptName = none) :
    processInstantiation fuel d ctx = .ok ctx := by
  simp [processInstantiation, hc, hs]

theorem processInstantiation_unknown_noop_witness :
    mapGet exCtx5.concepts "Ghost" = none ∧ mapGet exCtx5.schemas "Ghost" = none ∧
    processInstantiation 1 exInst5 exCtx5 = .ok exCtx5 :=
  ⟨by decide, by decide,
    processInstantiation_unknown_noop 1 exInst5 exCtx5 (by decide) (by decide)⟩

/-- C10: the template-substitution map is cleared and rebuilt only on the
concept path: when the instantiation does not resolve to a concept (whether
or not it resolves to a standalone schema), the substitution map of the
resulting context is exactly the incoming one, so any table generated on
this path expands template columns with the substitutions installed by the
most recent preceding concept instantiation. -/
theorem processInstantiation_schema_path_frame (fuel : Nat) (d : Instantiation)
    (ctx ctx2 : Ctx) (hc : mapGet ctx.concepts d.conceptName = none)
    (hok : processInstantiation fuel d ctx = .ok ctx2) :
    ctx2.templateSubs = ctx.templateSubs := by
  unfold processInstantiation at hok
  split at hok
  case h_2 concept heq => rw [hc] at heq; cases heq
  case h_1 heq =>
    split at hok
    case h_1 => injection hok with h; rw [← h]
    case h_2 schema heq2 =>
      split at hok
      case h_1 => injection hok with h; rw [← h]
      case h_2 target heq3 =>
        dsimp only at hok
        split at hok
        case h_1 e heq4 => exact Except.noConfusion hok
        case h_2 resolved heq4 =>
          injection hok with h
          rw [← h, generateTableSql_templateSubs]

theorem processInstantiation_schema_path_frame_witness :
    mapGet exCtx10.concepts "S" = none ∧
    processInstantiation 1 exInst10 exCtx10 = .ok exRes10 ∧
    exRes10.templateSubs = exCtx10.templateSubs :=
  ⟨by decide, rfl,
    processInstantiation_schema_path_frame 1 exInst10 exCtx10 exRes10 (by decide) rfl⟩

/-- C8: the embedded pipeline is a pure function of its input — the source
builds a fresh generator context per call (`createContext` inside
`generate`) and keeps no state across invocations — so in any sequence of
compile calls the result of a call is exactly the result of compiling that
input alone, and compiling the same input twice yields identical results. -/
theorem compile_deterministic_stateless (fuel : Nat) (prev : List ParseResult)
    (pr : ParseResult) :
    (runBatch fuel (prev ++ [pr])).getLast? = some (compileWithParse fuel pr) ∧
    runBatch fuel [pr, pr] = [compileWithParse fuel pr, compileWithParse fuel pr] := by
  constructor
  · simp [runBatch]
  · rfl

/-! Lemmas about mixin resolution. -/

theorem cyc_resolve_none (n : Nat) : resolveMixinsFuel n cycSchemas cycSchemaA = none := by
  induction n with
  | zero => rfl
  | succ n ih =>
    have hmix : cycSchemaA.mixins = ["A"] := rfl
    have h1 : mapGet cycSchemas "A" = some cycSchemaA := rfl
    show (resolveList (resolveMixinsFuel n cycSchemas) cycSchemas cycSchemaA.mixins).map
      (fun l => l ++ cycSchemaA.members) = none
    rw [hmix]
    unfold resolveList
    simp only [h1, ih]
    rfl

/-- C4: amended counterexample — the claim that the generator's mixin
resolution terminates on every parsed program is false: for the
parser-accepted program `schema A mixin A { } a = A;` no recursion depth
suffices (`resolveMixinsFuel` answers `none` for every fuel, the model of
the unbounded recursion), and the whole generation pass fails with the
stack-overflow error. -/
theorem mixin_cycle_diverges :
    (¬ ∃ n l, resolveMixinsFuel n cycSchemas cycSchemaA = some l) ∧
    generate 3 cycProg = .error stackOverflowMsg := by
  constructor
  · rintro ⟨n, l, h⟩
    rw [cyc_resolve_none n] at h
    exact Option.noConfusion h
  · rfl

theorem resolveList_mono_f (f g : SchemaDecl → Option (List SchemaBodyItem))
    (hfg : ∀ s l, f s = some l → g s = some l)
    (schemas : List (String × SchemaDecl)) :
    ∀ ms r, resolveList f schemas ms = some r → resolveList g schemas ms = some r := by
  intro ms
  induction ms with
  | nil => intro r h; exact h
  | cons m ms ih =>
    intro r h
    unfold resolveList at h ⊢
    cases hm : mapGet schemas m with
    | none =>
      simp only [hm] at h ⊢
      exact ih r h
    | some mx =>
      simp only [hm] at h ⊢
      cases hf : f mx with
      | none =>
        simp only [hf] at h
        exact Option.noConfusion h
      | some l1 =>
        simp only [hf] at h
        cases hr : resolveList f schemas ms with
        | none =>
          simp only [hr] at h
          exact Option.noConfusion h
        | some r1 =>
          simp only [hr] at h
          simp only [hfg mx l1 hf, ih r1 hr]
          exact h

theorem resolveMixinsFuel_mono_succ (schemas : List (String × SchemaDecl)) :
    ∀ n s l, resolveMixinsFuel n schemas s = some l →
      resolveMixinsFuel (n + 1) schemas s = some l := by
  intro n
  induction n with
  | zero => intro s l h; exact absurd h (by simp [resolveMixinsFuel])
  | succ n ih =>
    intro s l h
    unfold resolveMixinsFuel at h ⊢
    obtain ⟨front, hf, hl⟩ := Option.map_eq_some'.mp h
    rw [resolveList_mono_f _ _ ih schemas s.mixins front hf]
    simpa using hl

theorem resolveMixinsFuel_mono_le (schemas : List (String × SchemaDecl))
    (n m : Nat) (hnm : n ≤ m) (s : SchemaDecl) (l : List SchemaBodyItem)
    (h : resolveMixinsFuel n schemas s = some l) :
    resolveMixinsFuel m schemas s = some l := by
  induction m with
  | zero =>
    have : n = 0 := Nat.le_zero.mp hnm
    rw [this] at h; exact h
  | succ m ih =>
    rcases Nat.lt_or_ge n (m + 1) with hlt | hge
    · exact resolveMixinsFuel_mono_succ schemas m s l (ih (Nat.lt_succ_iff.mp hlt))
    · have : n = m + 1 := Nat.le_antisymm hnm hge
      rw [this] at h; exact h

theorem mixin_rank_aux (schemas : List (String × SchemaDecl)) (rank : String → Nat)
    (hglob : ∀ p ∈ schemas, ∀ m ∈ p.2.mixins,
      (mapGet schemas m).isSome = true → rank m < rank p.1) :
    ∀ B : Nat, ∀ s : SchemaDecl,
      (∀ m ∈ s.mixins, (mapGet schemas m).isSome = true → rank m < B) →
      ∃ l, resolveMixinsFuel (B + 1) schemas s = some l := by
  intro B
  induction B using Nat.strong_induction_on with
  | _ B ih =>
    intro s htop
    have hlist : ∀ ms : List String,
        (∀ m ∈ ms, (mapGet schemas m).isSome = true → rank m < B) →
        ∃ r, resolveList (resolveMixinsFuel B schemas) schemas ms = some r := by
      intro ms
      induction ms with
      | nil => intro _; exact ⟨[], rfl⟩
      | cons m ms ihm =>
        intro hms
        cases hm : mapGet schemas m with
        | none =>
          obtain ⟨r, hr⟩ := ihm (fun x hx => hms x (List.mem_cons_of_mem m hx))
          exact ⟨r, by unfold resolveList; rw [hm]; exact hr⟩
        | some md =>
          have hsomem : (mapGet schemas m).isSome = true := by rw [hm]; rfl
          have hrm : rank m < B := hms m (List.mem_cons_self m ms) hsomem
          -- locate the entry of `m` in the schema table to use the global hypothesis
          obtain ⟨q, hq1, hq2⟩ := Option.map_eq_some'.mp hm
          have hqmem : q ∈ schemas := List.mem_of_find?_eq_some hq1
          have hqkey : q.1 = m := by
            have := List.find?_some hq1
            simpa using this
          have hmd : ∀ m2 ∈ md.mixins, (mapGet schemas m2).isSome = true → rank m2 < rank m := by
            intro m2 hm2 hs2
            have := hglob q hqmem m2 (by rw [hq2]; exact hm2) hs2
            rw [hqkey] at this
            exact this
          obtain ⟨lm, hlm⟩ := ih (rank m) hrm md hmd
          have hlm2 : resolveMixinsFuel B schemas md = some lm :=
            resolveMixinsFuel_mono_le schemas (rank m + 1) B hrm md lm hlm
          obtain ⟨r, hr⟩ := ihm (fun x hx => hms x (List.mem_cons_of_mem m hx))
          refine ⟨lm ++ r, ?_⟩
          unfold resolveList
          simp only [hm, hlm2, hr]
    obtain ⟨r, hr⟩ := hlist s.mixins htop
    exact ⟨r ++ s.members, by unfold resolveMixinsFuel; rw [hr]; rfl⟩

/-- C4 (amended): mixin resolution terminates on every parsed program whose
mixin-reference graph is acyclic — witnessed by any rank function that
strictly decreases along resolvable mixin edges — with recursion depth
bounded by the rank: fuel `B + 1` suffices when every mixin of the start
schema has rank below `B`. -/
theorem mixin_resolution_terminates_acyclic (schemas : List (String × SchemaDecl))
    (rank : String → Nat) (B : Nat) (s : SchemaDecl)
    (hglob : ∀ p ∈ schemas, ∀ m ∈ p.2.mixins,
      (mapGet schemas m).isSome = true → rank m < rank p.1)
    (htop : ∀ m ∈ s.mixins, (mapGet schemas m).isSome = true → rank m < B) :
    ∃ l, resolveMixinsFuel (B + 1) schemas s = some l :=
  mixin_rank_aux schemas rank hglob B s htop

theorem mixin_resolution_terminates_acyclic_witness :
    (∀ p ∈ mixSchemas, ∀ m ∈ p.2.mixins,
      (mapGet mixSchemas m).isSome = true → exRank m < exRank p.1) ∧
    (∀ m ∈ usersMixSchema.mixins, (mapGet mixSchemas m).isSome = true → exRank m < 1) ∧
    ∃ l, resolveMixinsFuel 2 mixSchemas usersMixSchema = some l :=
  ⟨by decide, by decide,
    mixin_resolution_terminates_acyclic mixSchemas exRank 1 usersMixSchema
      (by decide) (by decide)⟩

theorem resolveList_append (f : SchemaDecl → Option (List SchemaBodyItem))
    (schemas : List (String × SchemaDecl)) :
    ∀ a b r, resolveList f schemas (a ++ b) = some r →
      ∃ ra rb, resolveList f schemas a = some ra ∧ resolveList f schemas b = some rb ∧
        r = ra ++ rb := by
  intro a
  induction a with
  | nil =>
    intro b r h
    exact ⟨[], r, rfl, h, rfl⟩
  | cons m a ih =>
    intro b r h
    rw [List.cons_append] at h
    unfold resolveList at h
    cases hm : mapGet schemas m with
    | none =>
      simp only [hm] at h
      obtain ⟨ra, rb, ha, hb, hr⟩ := ih b r h
      refine ⟨ra, rb, ?_, hb, hr⟩
      unfold resolveList
      simp only [hm]
      exact ha
    | some mx =>
      simp only [hm] at h
      cases hf : f mx with
      | none => simp only [hf] at h; exact Option.noConfusion h
      | some l =>
        simp only [hf] at h
        cases hrest : resolveList f schemas (a ++ b) with
        | none => simp only [hrest] at h; exact Option.noConfusion h
        | some rr =>
          simp only [hrest] at h
          obtain ⟨ra, rb, ha, hb, hrr⟩ := ih b rr hrest
          refine ⟨l ++ ra, rb, ?_, hb, ?_⟩
          · unfold resolveList
            simp only [hm, hf, ha]
          · injection h with h2
            rw [← h2, hrr, List.append_assoc]

theorem resolveList_singleton (f : SchemaDecl → Option (List SchemaBodyItem))
    (schemas : List (String × SchemaDecl)) (m : String) (mx : SchemaDecl)
    (hm : mapGet schemas m = some mx) (lm : List SchemaBodyItem)
    (hf : f mx = some lm) :
    resolveList f schemas [m] = some lm := by
  unfold resolveList
  simp only [hm, hf]
  unfold resolveList
  simp [List.append_nil]

/-- C6: for a schema with a non-empty mixins list, a successful mixin
resolution is the depth-first, left-to-right flattening of the mixins
followed by the schema's own members, with no de-duplication: the resolved
items decompose as `front ++ s.members`, the front distributes over any
split of the declared mixin list as plain list concatenation (so multiple
mixins contribute in declared order and duplicates are kept), and each
resolvable mixin's singleton contribution is exactly its own recursive
resolution. -/
theorem mixin_flattening (n : Nat) (schemas : List (String × SchemaDecl)) (s : SchemaDecl)
    (items : List SchemaBodyItem) (hmx : s.mixins ≠ [])
    (h : resolveMixinsFuel (n + 1) schemas s = some items) :
    ∃ front, resolveList (resolveMixinsFuel n schemas) schemas s.mixins = some front ∧
      items = front ++ s.members ∧
      (∀ ms1 ms2, s.mixins = ms1 ++ ms2 →
        ∃ f1 f2, resolveList (resolveMixinsFuel n schemas) schemas ms1 = some f1 ∧
          resolveList (resolveMixinsFuel n schemas) schemas ms2 = some f2 ∧
          front = f1 ++ f2) ∧
      (∀ m mx, m ∈ s.mixins → mapGet schemas m = some mx →
        ∃ lm, resolveMixinsFuel n schemas mx = some lm ∧
          resolveList (resolveMixinsFuel n schemas) schemas [m] = some lm) := by
  unfold resolveMixinsFuel at h
  obtain ⟨front, hfront, hitems⟩ := Option.map_eq_some'.mp h
  refine ⟨front, hfront, hitems.symm, ?_, ?_⟩
  · intro ms1 ms2 hsplit
    rw [hsplit] at hfront
    obtain ⟨f1, f2, h1, h2, h3⟩ :=
      resolveList_append (resolveMixinsFuel n schemas) schemas ms1 ms2 front hfront
    exact ⟨f1, f2, h1, h2, h3⟩
  · intro m mx hmem hmget
    obtain ⟨l1, l2, hl⟩ := List.append_of_mem hmem
    rw [hl] at hfront
    obtain ⟨f1, f2, _, h2, _⟩ :=
      resolveList_append (resolveMixinsFuel n schemas) schemas l1 (m :: l2) front hfront
    unfold resolveList at h2
    simp only [hmget] at h2
    cases hf : resolveMixinsFuel n schemas mx with
    | none => simp only [hf] at h2; exact Option.noConfusion h2
    | some lm =>
      exact ⟨lm, rfl, resolveList_singleton _ schemas m mx hmget lm hf⟩

theorem mixin_flattening_witness :
    usersMixSchema.mixins ≠ [] ∧
    resolveMixinsFuel 2 mixSchemas usersMixSchema = some [.col tsCol, .col idCol] ∧
    (∃ front,
      resolveList (resolveMixinsFuel 1 mixSchemas) mixSchemas usersMixSchema.mixins =
        some front ∧
      [SchemaBodyItem.col tsCol, SchemaBodyItem.col idCol] = front ++ usersMixSchema.members ∧
      (∀ ms1 ms2, usersMixSchema.mixins = ms1 ++ ms2 →
        ∃ f1 f2, resolveList (resolveMixinsFuel 1 mixSchemas) mixSchemas ms1 = some f1 ∧
          resolveList (resolveMixinsFuel 1 mixSchemas) mixSchemas ms2 = some f2 ∧
          front = f1 ++ f2) ∧
      (∀ m mx, m ∈ usersMixSchema.mixins → mapGet mixSchemas m = some mx →
        ∃ lm, resolveMixinsFuel 1 mixSchemas mx = some lm ∧
          resolveList (resolveMixinsFuel 1 mixSchemas) mixSchemas [m] = some lm)) :=
  ⟨by decide, by decide,
    mixin_flattening 1 mixSchemas usersMixSchema [.col tsCol, .col idCol]
      (by decide) (by decide)⟩

/-! Lemmas about character scanning for the enum-default normalization. -/

theorem takeWhile_all {α : Type} (p : α → Bool) (l : List α)
    (h : ∀ x ∈ l, p x = true) : l.takeWhile p = l := by
  induction l with
  | nil => rfl
  | cons a l ih =>
    rw [List.takeWhile_cons, h a (List.mem_cons_self a l)]
    simp [ih (fun x hx => h x (List.mem_cons_of_mem a hx))]

theorem takeWhile_append_stop {α : Type} (p : α → Bool) (xs : List α) (y : α) (ys : List α)
    (hx : ∀ x ∈ xs, p x = true) (hy : p y = false) :
    (xs ++ y :: ys).takeWhile p = xs := by
  induction xs with
  | nil => simp [List.takeWhile_cons, hy]
  | cons a xs ih =>
    rw [List.cons_append, List.takeWhile_cons, hx a (List.mem_cons_self a xs)]
    simp [ih (fun x hx2 => hx x (List.mem_cons_of_mem a hx2))]

theorem word_not_colon (c : Char) (h : isWordChar c = true) : ¬(c = ':') := by
  intro e
  rw [e] at h
  exact absurd h (by decide)

theorem word_not_squote (c : Char) (h : isWordChar c = true) : ¬(c = squote) := by
  intro e
  rw [e] at h
  exact absurd h (by decide)

theorem hasDoubleColon_word (l : List Char) (h : ∀ c ∈ l, isWordChar c = true) :
    hasDoubleColon l = false := by
  induction l with
  | nil => rfl
  | cons a l ih =>
    cases l with
    | nil => rfl
    | cons b l2 =>
      have ha : ¬(a = ':') := word_not_colon a (h a (List.mem_cons_self a _))
      have hrest : hasDoubleColon (b :: l2) = false :=
        ih (fun c hc => h c (List.mem_cons_of_mem a hc))
      show ((a == ':') && (b == ':') || hasDoubleColon (b :: l2)) = false
      simp [hrest, ha]

theorem hasDoubleColon_colons (a b : List Char) :
    hasDoubleColon (a ++ ':' :: ':' :: b) = true := by
  induction a with
  | nil => simp [hasDoubleColon]
  | cons x xs ih =>
    cases xs with
    | nil =>
      show ((x == ':') && (':' == ':') || hasDoubleColon (':' :: ':' :: b)) = true
      simp [hasDoubleColon]
    | cons y ys =>
      show ((x == ':') && (y == ':') || hasDoubleColon (y :: (ys ++ ':' :: ':' :: b))) = true
      rw [List.cons_append] at ih
      simp [ih]

theorem isAlreadyFormatted_head (c : Char) (l : List Char) (h : ¬(c = squote)) :
    isAlreadyFormatted (c :: l) = false := by
  unfold isAlreadyFormatted
  simp [h]

theorem isAlreadyFormatted_shape (body ty : List Char)
    (hb : ∀ c ∈ body, ¬(c = squote)) (hty : ty ≠ [])
    (hw : ∀ c ∈ ty, isWordChar c = true) :
    isAlreadyFormatted (squote :: (body ++ squote :: ':' :: ':' :: ty)) = true := by
  unfold isAlreadyFormatted
  have hbody : (body ++ squote :: ':' :: ':' :: ty).takeWhile (fun d => !(d == squote)) = body := by
    apply takeWhile_append_stop
    · intro x hx
      simp [hb x hx]
    · simp
  have hdrop : (body ++ squote :: ':' :: ':' :: ty).drop body.length =
      squote :: ':' :: ':' :: ty := List.drop_left body _
  simp only [if_pos rfl, hbody, hdrop]
  have h1 : ty.all isWordChar = true := List.all_eq_true.mpr (fun x hx => hw x hx)
  simp [h1, hty]

theorem formatTypeCastF_nil (f : Nat) : formatTypeCastF f [] = [] := by
  cases f <;> rfl

theorem formatTypeCastL_pair (c : Char) (t' v : List Char)
    (hc : isWordChar c = true) (ht : ∀ x ∈ t', isWordChar x = true)
    (hv : v ≠ []) (hvw : ∀ x ∈ v, isWordChar x = true) :
    formatTypeCastL (c :: (t' ++ ':' :: ':' :: v)) =
      squote :: v ++ squote :: ':' :: ':' :: c :: t' := by
  have hcolon : isWordChar ':' = false := by decide
  have hrun : (t' ++ ':' :: ':' :: v).takeWhile isWordChar = t' :=
    takeWhile_append_stop isWordChar t' ':' (':' :: v) ht hcolon
  have hdrop : (t' ++ ':' :: ':' :: v).drop t'.length = ':' :: ':' :: v :=
    List.drop_left t' _
  have hdrop2 : (t' ++ ':' :: ':' :: v).drop (t'.length + 2) = v := by
    rw [← List.drop_drop, hdrop]
    rfl
  have hrun2 : v.takeWhile isWordChar = v := takeWhile_all isWordChar v hvw
  have hvlen : ¬(v.length = 0) := by
    intro e
    exact hv (List.length_eq_zero.mp e)
  show formatTypeCastF (c :: (t' ++ ':' :: ':' :: v)).length (c :: (t' ++ ':' :: ':' :: v)) = _
  rw [List.length_cons]
  unfold formatTypeCastF
  simp only [hc, if_true, hrun, hdrop, hdrop2, hrun2, hvlen, if_false, ite_false,
    List.drop_length, formatTypeCastF_nil, List.append_nil]

/-- C2: for a column whose declared data type names a known enum, the
emitted default normalizes as claimed — the literal `NULL` passes through
unchanged (on enum and non-enum columns alike), a bare identifier `v`
becomes `'v'::enum`, a qualified pair `t::v` becomes `'v'::t`, and an
already-cast literal `'body'::ty` passes through unchanged. -/
theorem enumDefault_normalization :
    (∀ ty : String, formatEnumDefault "NULL" ty = "NULL") ∧
    (∀ v ty : String, v.data ≠ [] → (∀ c ∈ v.data, isWordChar c = true) → v ≠ "NULL" →
      formatEnumDefault v ty = squoteS ++ v ++ squoteS ++ "::" ++ ty) ∧
    (∀ t v ty : String, t.data ≠ [] → (∀ c ∈ t.data, isWordChar c = true) →
      v.data ≠ [] → (∀ c ∈ v.data, isWordChar c = true) →
      formatEnumDefault (t ++ "::" ++ v) ty = squoteS ++ v ++ squoteS ++ "::" ++ t) ∧
    (∀ body ty2 ty : String, (∀ c ∈ body.data, ¬(c = squote)) →
      ty2.data ≠ [] → (∀ c ∈ ty2.data, isWordChar c = true) →
      formatEnumDefault (squoteS ++ body ++ squoteS ++ "::" ++ ty2) ty =
        squoteS ++ body ++ squoteS ++ "::" ++ ty2) ∧
    (∀ (ctx : Ctx) (nm dt : String),
      generateColumnSql ctx { name := nm, dataType := dt, constraints := [.defaultC (some "NULL")] } =
        "    " ++ expandTemplate ctx.templateSubs nm ++ " " ++ dt.toUpper ++ " DEFAULT NULL") := by
  refine ⟨?_, ?_, ?_, ?_, ?_⟩
  · intro ty
    simp [formatEnumDefault]
  · intro v ty hne hw hnull
    have h1 : isAlreadyFormatted v.data = false := by
      cases hv : v.data with
      | nil => exact absurd hv hne
      | cons c rest =>
        apply isAlreadyFormatted_head
        apply word_not_squote
        apply hw
        rw [hv]
        exact List.mem_cons_self c rest
    have h2 : hasDoubleColon v.data = false := hasDoubleColon_word v.data hw
    unfold formatEnumDefault
    rw [if_neg hnull]
    simp [h1, h2]
  · intro t v ty htne htw hvne hvw
    have hdata : (t ++ "::" ++ v).data = t.data ++ ':' :: ':' :: v.data := by
      simp [String.data_append]
    have hnull : ¬(t ++ "::" ++ v = "NULL") := by
      intro e
      have h := congrArg String.data e
      rw [hdata] at h
      have hmem : ':' ∈ t.data ++ ':' :: ':' :: v.data :=
        List.mem_append_right _ (List.mem_cons_self ':' _)
      rw [h] at hmem
      exact absurd hmem (by decide)
    obtain ⟨c, t'', hct⟩ : ∃ c t'', t.data = c :: t'' := by
      cases ht : t.data with
      | nil => exact absurd ht htne
      | cons c t'' => exact ⟨c, t'', rfl⟩
    have hcw : isWordChar c = true := htw c (by rw [hct]; exact List.mem_cons_self c t'')
    have halready : isAlreadyFormatted (t ++ "::" ++ v).data = false := by
      rw [hdata, hct, List.cons_append]
      exact isAlreadyFormatted_head c _ (word_not_squote c hcw)
    have hdc : hasDoubleColon (t ++ "::" ++ v).data = true := by
      rw [hdata]
      exact hasDoubleColon_colons t.data v.data
    unfold formatEnumDefault
    rw [if_neg hnull]
    simp only [halready, hdc, Bool.false_eq_true, if_false, if_true, ite_false, ite_true]
    unfold formatTypeCast
    simp only [hdc, if_true, ite_true]
    apply String.ext
    show (formatTypeCastL (t ++ "::" ++ v).data) = _
    rw [hdata, hct, List.cons_append]
    rw [formatTypeCastL_pair c t'' v.data hcw
      (fun x hx => htw x (by rw [hct]; exact List.mem_cons_of_mem c hx)) hvne hvw]
    simp [String.data_append, squoteS, hct]
  · intro body ty2 ty hb hne hw
    have hdata : (squoteS ++ body ++ squoteS ++ "::" ++ ty2).data =
        squote :: (body.data ++ squote :: ':' :: ':' :: ty2.data) := by
      simp [String.data_append, squoteS]
    have hnull : ¬(squoteS ++ body ++ squoteS ++ "::" ++ ty2 = "NULL") := by
      intro e
      have h := congrArg String.data e
      rw [hdata] at h
      have hN : ("NULL" : String).data = ['N', 'U', 'L', 'L'] := rfl
      rw [hN] at h
      injection h with h1 _
      exact absurd h1 (by decide)
    have halready : isAlreadyFormatted (squoteS ++ body ++ squoteS ++ "::" ++ ty2).data = true := by
      rw [hdata]
      exact isAlreadyFormatted_shape body.data ty2.data hb hne hw
    unfold formatEnumDefault
    rw [if_neg hnull]
    simp only [halready, if_true, ite_true]
  · intro ctx nm dt
    have hpair : ∀ a b : String, String.intercalate (" ") [a, b] = a ++ " " ++ b := by
      intro a b
      rfl
    have hmerge2 : ∀ p : String, p ++ " " ++ "DEFAULT NULL" = p ++ " DEFAULT NULL" := by
      intro p
      apply String.ext
      simp [String.data_append, List.append_assoc]
    have hnulldef : formatEnumDefault "NULL" dt.toLower = "NULL" := by
      simp [formatEnumDefault]
    unfold generateColumnSql
    simp only [List.foldl_cons, List.foldl_nil]
    unfold applyConstraint
    simp only [Option.getD_some]
    have hDN : ("DEFAULT " ++ "NULL" : String) = "DEFAULT NULL" := rfl
    cases h : (mapGet ctx.enums dt.toLower).isSome with
    | true =>
      simp only [h, if_true, ite_true, hnulldef, List.singleton_append, hDN, List.append_nil]
      rw [hpair]
      exact hmerge2 _
    | false =>
      simp only [h, Bool.false_eq_true, if_false, ite_false, List.singleton_append, hDN, List.append_nil]
      rw [hpair]
      exact hmerge2 _

theorem enumDefault_normalization_witness :
    formatEnumDefault "active" "status" = squoteS ++ "active" ++ squoteS ++ "::" ++ "status" ∧
    formatEnumDefault ("status" ++ "::" ++ "active") "status" =
      squoteS ++ "active" ++ squoteS ++ "::" ++ "status" ∧
    formatEnumDefault (squoteS ++ "active" ++ squoteS ++ "::" ++ "status") "status" =
      squoteS ++ "active" ++ squoteS ++ "::" ++ "status" ∧
    formatEnumDefault "NULL" "status" = "NULL" := by
  refine ⟨?_, ?_, ?_, ?_⟩
  · exact enumDefault_normalization.2.1 "active" "status" (by decide) (by decide) (by decide)
  · exact enumDefault_normalization.2.2.1 "status" "active" "status"
      (by decide) (by decide) (by decide) (by decide)
  · exact enumDefault_normalization.2.2.2.1 "active" "status" "status"
      (by decide) (by decide) (by decide)
  · exact enumDefault_normalization.1 "status"

/-! Lemmas about the insertion-ordered map and the instantiation setup. -/

theorem find?_overwrite_self {α : Type} (ps : List (String × α)) (k : String) (v : α)
    (hany : ps.any (fun p => p.1 == k) = true) :
    (ps.map (fun p => if p.1 == k then (k, v) else p)).find? (fun p => p.1 == k) =
      some (k, v) := by
  induction ps with
  | nil => exact absurd hany (by simp)
  | cons p ps ih =>
    by_cases hp : (p.1 == k) = true
    · simp [List.find?, hp]
    · have hps : ps.any (fun q => q.1 == k) = true := by
        rcases List.any_eq_true.mp hany with ⟨q, hq, hqk⟩
        rcases List.mem_cons.mp hq with rfl | hq2
        · exact absurd hqk hp
        · exact List.any_eq_true.mpr ⟨q, hq2, hqk⟩
      simpa [List.find?, hp] using ih hps

theorem find?_overwrite_ne {α : Type} (ps : List (String × α)) (k k' : String) (v : α)
    (h : ¬(k' = k)) :
    (ps.map (fun p => if p.1 == k then (k, v) else p)).find? (fun p => p.1 == k') =
      ps.find? (fun p => p.1 == k') := by
  induction ps with
  | nil => rfl
  | cons p ps ih =>
    by_cases hp : (p.1 == k) = true
    · have hp' : p.1 = k := by simpa using hp
      have h1 : ((k : String) == k') = false := by
        simp
        intro e
        exact h e.symm
      have h2 : (p.1 == k') = false := by rw [hp']; exact h1
      simpa [List.find?, hp, h1, h2] using ih
    · by_cases hpk : (p.1 == k') = true
      · simp [List.find?, hp, hpk]
      · simpa [List.find?, hp, hpk] using ih

theorem find?_append_pair {α : Type} (m : List α) (x : α) (p : α → Bool) (hm : m.find? p = none)
    (hx : p x = true) : (m ++ [x]).find? p = some x := by
  induction m with
  | nil => simp [List.find?, hx]
  | cons a m ih =>
    have hpa : p a = false := by
      by_contra hc
      simp [List.find?, eq_true_of_ne_false hc] at hm
    rw [List.find?_cons] at hm
    simp only [hpa] at hm
    simpa [List.find?, hpa] using ih hm

theorem mapGet_mapSet_self {α : Type} (m : List (String × α)) (k : String) (v : α) :
    mapGet (mapSet m k v) k = some v := by
  unfold mapSet mapGet
  by_cases h : m.any (fun p => p.1 == k) = true
  · rw [if_pos h, find?_overwrite_self m k v h]
    rfl
  · rw [if_neg h]
    have hnone : m.find? (fun p => p.1 == k) = none := by
      rw [List.find?_eq_none]
      intro q hq hqk
      exact h (List.any_eq_true.mpr ⟨q, hq, hqk⟩)
    rw [find?_append_pair m (k, v) _ hnone (by simp)]
    rfl

theorem mapGet_mapSet_ne {α : Type} (m : List (String × α)) (k : String) (v : α)
    (k' : String) (h : ¬(k' = k)) : mapGet (mapSet m k v) k' = mapGet m k' := by
  unfold mapSet mapGet
  by_cases ha : m.any (fun p => p.1 == k) = true
  · rw [if_pos ha, find?_overwrite_ne m k k' v h]
  · rw [if_neg ha]
    cases hf : m.find? (fun p => p.1 == k') with
    | some q => rw [List.find?_append, hf]; rfl
    | none =>
      rw [List.find?_append, hf]
      have hkk' : ((k : String) == k') = false := by
        simp
        intro e
        exact h e.symm
      simp [List.find?, hkk']

theorem installTypeParams_subs_not_mem (ps : List String) (args : List TargetArg)
    (ctx : Ctx) (p : String) (h : p ∉ ps) :
    mapGet (installTypeParams ctx ps args).templateSubs p = mapGet ctx.templateSubs p := by
  induction ps generalizing args ctx with
  | nil => rfl
  | cons q ps ih =>
    have hq : ¬(p = q) := fun e => h (e ▸ List.mem_cons_self q ps)
    have hps : p ∉ ps := fun hm => h (List.mem_cons_of_mem q hm)
    cases args with
    | nil => rfl
    | cons a args =>
      unfold installTypeParams
      by_cases hq0 : q = ""
      · rw [if_pos hq0]
        exact ih args ctx hps
      · rw [if_neg hq0]
        rw [ih args _ hps]
        exact mapGet_mapSet_ne ctx.templateSubs q (a.aliasM.getD (toSnakeCase q)) p hq

theorem installTypeParams_subs_get (ps : List String) (args : List TargetArg)
    (ctx : Ctx) (i : Nat) (p : String) (a : TargetArg)
    (hp : ps.get? i = some p) (ha : args.get? i = some a) (hne : ¬(p = ""))
    (hnd : ps.Nodup) :
    mapGet (installTypeParams ctx ps args).templateSubs p =
      some (a.aliasM.getD (toSnakeCase p)) := by
  induction i generalizing ps args ctx with
  | zero =>
    cases ps with
    | nil => exact Option.noConfusion hp
    | cons q ps =>
      cases args with
      | nil => exact Option.noConfusion ha
      | cons b args =>
        have hq : q = p := by simpa using hp
        have hb : b = a := by simpa using ha
        subst hq
        subst hb
        have hnotmem : q ∉ ps := (List.nodup_cons.mp hnd).1
        unfold installTypeParams
        rw [if_neg hne]
        rw [installTypeParams_subs_not_mem ps args _ q hnotmem]
        exact mapGet_mapSet_self ctx.templateSubs q (b.aliasM.getD (toSnakeCase q))
  | succ i ih =>
    cases ps with
    | nil => exact Option.noConfusion hp
    | cons q ps =>
      cases args with
      | nil => exact Option.noConfusion ha
      | cons b args =>
        have hp2 : ps.get? i = some p := by simpa using hp
        have ha2 : args.get? i = some a := by simpa using ha
        have hnd2 : ps.Nodup := (List.nodup_cons.mp hnd).2
        unfold installTypeParams
        by_cases hq0 : q = ""
        · rw [if_pos hq0]
          exact ih ps args ctx hp2 ha2 hnd2
        · rw [if_neg hq0]
          exact ih ps args _ hp2 ha2 hnd2

theorem installMembers_subs_not_mem (schs : List SchemaDecl) (ts : List TargetArg)
    (acc : Ctx × List (String × TargetArg)) (p : String)
    (h : ∀ sch ∈ schs, ¬(sch.name = p)) :
    mapGet (installMembers acc schs ts).1.templateSubs p = mapGet acc.1.templateSubs p := by
  induction schs generalizing ts acc with
  | nil => rfl
  | cons sch schs ih =>
    cases ts with
    | nil => rfl
    | cons t ts =>
      unfold installMembers
      rw [ih ts _ (fun s hs => h s (List.mem_cons_of_mem sch hs))]
      exact mapGet_mapSet_ne acc.1.templateSubs sch.name _ p
        (fun e => h sch (List.mem_cons_self sch schs) e.symm)

theorem splitBraceGo_spec (xs : List Char) (acc ys : List Char)
    (hx : ∀ c ∈ xs, ¬(c = rbrace)) (hne : acc ≠ [] ∨ xs ≠ []) :
    splitBraceGo (xs ++ rbrace :: ys) acc = some (acc.reverse ++ xs, ys) := by
  induction xs generalizing acc with
  | nil =>
    have hacc : acc ≠ [] := by
      rcases hne with h | h
      · exact h
      · exact absurd rfl h
    unfold splitBraceGo
    simp only [List.nil_append, if_pos rfl]
    have : acc.isEmpty = false := by
      cases acc with
      | nil => exact absurd rfl hacc
      | cons a l => rfl
    simp [this]
  | cons c xs ih =>
    have hc : ¬(c = rbrace) := hx c (List.mem_cons_self c xs)
    rw [List.cons_append]
    unfold splitBraceGo
    rw [if_neg hc]
    rw [ih (c :: acc) (fun x hx2 => hx x (List.mem_cons_of_mem c hx2)) (Or.inl (by simp))]
    simp [List.append_assoc]

theorem strData_ne_nil (s : String) (h : ¬(s = "")) : s.data ≠ [] := by
  intro e
  apply h
  have : String.mk s.data = String.mk [] := by rw [e]
  simpa using this

theorem splitBrace_shape (param suffix : String) (hp : ¬(param = ""))
    (hb : ∀ c ∈ param.data, ¬(c = rbrace)) :
    splitBrace (mkTemplateName param suffix).data = some (param.data, suffix.data) := by
  show (if lbrace = lbrace then
      splitBraceGo (param.data ++ rbrace :: suffix.data) [] else none) = _
  rw [if_pos rfl]
  rw [splitBraceGo_spec param.data [] suffix.data hb (Or.inr (strData_ne_nil param hp))]
  simp

theorem templateMatch_shape (param suffix : String) (hp : ¬(param = ""))
    (hb : ∀ c ∈ param.data, ¬(c = rbrace)) (hn : suffix.data.contains '\n' = false) :
    templateMatch (mkTemplateName param suffix) = some (param, suffix) := by
  unfold templateMatch
  rw [splitBrace_shape param suffix hp hb]
  simp only [hn, Bool.false_eq_true, if_false, ite_false]

theorem expandTemplate_sub (subs : List (String × String)) (param suffix value : String)
    (hp : ¬(param = "")) (hb : ∀ c ∈ param.data, ¬(c = rbrace))
    (hn : suffix.data.contains '\n' = false)
    (hv : mapGet subs param = some value) :
    expandTemplate subs (mkTemplateName param suffix) = value ++ suffix := by
  unfold expandTemplate
  rw [templateMatch_shape param suffix hp hb hn]
  show (mapGet subs param).getD (toSnakeCase param) ++ suffix = value ++ suffix
  rw [hv]
  rfl

/-- C7: in a concept instantiation, the type parameter at position `i`,
zipped against the type argument at position `i`, receives as its
template-substitution value the caller's alias when one is given and
otherwise the snake_case conversion of the parameter name; consequently the
template column `{Param}_id` expands to `<alias>_id` with an alias and to
`<snake_case(param)>_id` without one. -/
theorem typeParam_substitution (ctx : Ctx) (c : ConceptDecl) (d : Instantiation) (i : Nat)
    (param : String) (arg : TargetArg)
    (hp : c.typeParams.get? i = some param) (ha : d.typeArgs.get? i = some arg)
    (hne : ¬(param = "")) (hnd : c.typeParams.Nodup)
    (hns : ∀ sch ∈ conceptSchemasOf c, ¬(sch.name = param))
    (hbr : ∀ ch ∈ param.data, ¬(ch = rbrace)) :
    mapGet (instSetupCtx ctx c d).1.templateSubs param =
      some (arg.aliasM.getD (toSnakeCase param)) ∧
    expandTemplate (instSetupCtx ctx c d).1.templateSubs (mkTemplateName param "_id") =
      arg.aliasM.getD (toSnakeCase param) ++ "_id" := by
  have h1 : mapGet (instSetupCtx ctx c d).1.templateSubs param =
      some (arg.aliasM.getD (toSnakeCase param)) := by
    unfold instSetupCtx
    rw [installMembers_subs_not_mem (conceptSchemasOf c) d.targets _ param hns]
    exact installTypeParams_subs_get c.typeParams d.typeArgs (clearedSubs ctx) i param arg
      hp ha hne hnd
  refine ⟨h1, ?_⟩
  exact expandTemplate_sub _ param "_id" _ hne hbr (by decide) h1

theorem typeParam_substitution_witness :
    expandTemplate (instSetupCtx createContext annConcept exInstTarget).1.templateSubs
      (mkTemplateName "Target" "_id") = "examLOL_id" ∧
    expandTemplate (instSetupCtx createContext authConcept exInstAuthor).1.templateSubs
      (mkTemplateName "Author" "_id") = "author_id" := by
  constructor
  · have h := typeParam_substitution createContext annConcept exInstTarget 0 "Target"
      { tableName := "exams", aliasM := some "examLOL" }
      rfl rfl (by decide) (by decide) (by decide) (by decide)
    have he : ({ tableName := "exams", aliasM := some "examLOL" } : TargetArg).aliasM.getD
        (toSnakeCase "Target") ++ "_id" = "examLOL_id" := by decide
    rw [← he]
    exact h.2
  · have h := typeParam_substitution createContext authConcept exInstAuthor 0 "Author"
      { tableName := "authors" }
      rfl rfl (by decide) (by decide) (by decide) (by decide)
    have he : ({ tableName := "authors" } : TargetArg).aliasM.getD
        (toSnakeCase "Author") ++ "_id" = "author_id" := by decide
    rw [← he]
    exact h.2

/-! Lemmas about the lexer model for the longest-match claim. -/

theorem idStart_ne_lit (c d : Char) (h : isIdStart c = true) (hd : isIdStart d = false) :
    (d == c) = false := by
  cases hb : d == c with
  | false => rfl
  | true =>
    have he : d = c := by simpa using hb
    rw [he] at hd
    rw [hd] at h
    exact Bool.noConfusion h

theorem startsWithL_cons_false (p c : Char) (ps cs : List Char) (h : (p == c) = false) :
    startsWithL (p :: ps) (c :: cs) = false := by
  simp [startsWithL, h]

theorem idStart_not_ws (c : Char) (h : isIdStart c = true) : isJsWs c = false := by
  cases hj : isJsWs c with
  | false => rfl
  | true =>
    exfalso
    simp only [isJsWs, Bool.or_eq_true, beq_iff_eq] at hj
    rcases hj with ((((rfl | rfl) | rfl) | rfl) | rfl) | rfl <;> exact absurd h (by decide)

theorem idChar_not_ws (c : Char) (h : isIdChar c = true) : isJsWs c = false := by
  cases hj : isJsWs c with
  | false => rfl
  | true =>
    exfalso
    simp only [isJsWs, Bool.or_eq_true, beq_iff_eq] at hj
    rcases hj with ((((rfl | rfl) | rfl) | rfl) | rfl) | rfl <;> exact absurd h (by decide)

theorem idStart_not_digit (c : Char) (h : isIdStart c = true) : isDigitB c = false := by
  cases hd : isDigitB c with
  | false => rfl
  | true =>
    exfalso
    simp only [isIdStart, isLowerB, isUpperB, Bool.or_eq_true, Bool.and_eq_true,
      decide_eq_true_eq, beq_iff_eq] at h
    simp only [isDigitB, Bool.and_eq_true, decide_eq_true_eq] at hd
    rcases h with (⟨h1, _⟩ | ⟨h1, _⟩) | rfl
    · exact absurd (le_trans h1 hd.2) (by decide)
    · exact absurd (le_trans h1 hd.2) (by decide)
    · exact absurd hd (by decide)

theorem identLen_full (w : List Char) (hw : isIdentWord w = true) :
    identLen w = some w.length := by
  cases w with
  | nil => exact absurd hw (by decide)
  | cons c rest =>
    simp only [isIdentWord, Bool.and_eq_true] at hw
    show (if isIdStart c = true then some ((rest.takeWhile isIdChar).length + 1) else none) =
      some (c :: rest).length
    rw [if_pos hw.1, takeWhile_all isIdChar rest (List.all_eq_true.mp hw.2)]
    simp

theorem wsLen_ident_none (c : Char) (rest : List Char) (h : isIdStart c = true) :
    wsLen (c :: rest) = none := by
  show (if ((c :: rest).takeWhile isJsWs).length = 0 then none
    else some ((c :: rest).takeWhile isJsWs).length) = none
  rw [List.takeWhile_cons, idStart_not_ws c h]
  rfl

theorem lineCommentLen_ident_none (c : Char) (rest : List Char) (h : isIdStart c = true) :
    lineCommentLen (c :: rest) = none := by
  show (if startsWithL ['/', '/'] (c :: rest) = true then
      some (2 + (((c :: rest).drop 2).takeWhile (fun x => !(x == '\n'))).length)
    else none) = none
  rw [startsWithL_cons_false '/' c _ _ (idStart_ne_lit c '/' h (by decide))]
  rfl

theorem blockCommentLen_ident_none (c : Char) (rest : List Char) (h : isIdStart c = true) :
    blockCommentLen (c :: rest) = none := by
  show (if startsWithL ['/', '*'] (c :: rest) = true then
      (blockCommentEnd ((c :: rest).drop 2)).map (fun n => n + 2) else none) = none
  rw [startsWithL_cons_false '/' c _ _ (idStart_ne_lit c '/' h (by decide))]
  rfl

theorem punct_ident_none (t : String) (c : Char) (rest : List Char)
    (h : isIdStart c = true) (d : Char) (ds : List Char) (ht : t.data = d :: ds)
    (hd : isIdStart d = false) :
    matchLen (.punct t) (c :: rest) = none := by
  show (if startsWithL t.data (c :: rest) = true then some t.data.length else none) = none
  rw [ht, startsWithL_cons_false d c _ _ (idStart_ne_lit c d h hd)]
  rfl

theorem stringLitLen_ident_none (c : Char) (rest : List Char) (h : isIdStart c = true) :
    stringLitLen (c :: rest) = none := by
  show (if c = squote then (stringBodyLen rest).map (fun n => n + 1) else none) = none
  rw [if_neg (fun e => by rw [e] at h; exact absurd h (by decide) : ¬(c = squote))]

theorem numberLitLen_ident_none (c : Char) (rest : List Char) (h : isIdStart c = true) :
    numberLitLen (c :: rest) = none := by
  show (if c = '-' then numberLitBody 1 rest else numberLitBody 0 (c :: rest)) = none
  rw [if_neg (fun e => by rw [e] at h; exact absurd h (by decide) : ¬(c = '-'))]
  have hd : digitRunLen (c :: rest) = 0 := by
    unfold digitRunLen
    rw [List.takeWhile_cons, idStart_not_digit c h]
    rfl
  unfold numberLitBody
  simp [hd]

theorem templateIdentLen_ident_none (c : Char) (rest : List Char) (h : isIdStart c = true) :
    templateIdentLen (c :: rest) = none := by
  show (if c = lbrace then
      (match identLen rest with
        | some n => if (rest.drop n).head? = some rbrace then some (n + 2) else none
        | none => none)
    else none) = none
  rw [if_neg (fun e => by rw [e] at h; exact absurd h (by decide) : ¬(c = lbrace))]

theorem dpLen_ident_none (w : List Char) (hw : ∀ x ∈ w, isIdChar x = true) :
    dpLen w = none := by
  unfold dpLen
  by_cases hsw : startsWithCI ("double").data w = true
  · rw [if_pos hsw]
    have hdrop : (w.drop 6).takeWhile isJsWs = [] := by
      cases hd : w.drop 6 with
      | nil => rfl
      | cons x xs =>
        have hx : x ∈ w := List.mem_of_mem_drop (by rw [hd]; exact List.mem_cons_self x xs)
        rw [List.takeWhile_cons, idChar_not_ws x (hw x hx)]
        rfl
    simp [hdrop]
  · rw [if_neg hsw]

theorem startsWithL_le : ∀ p s : List Char, startsWithL p s = true → p.length ≤ s.length := by
  intro p
  induction p with
  | nil => intro s _; simp
  | cons a p ih =>
    intro s h
    cases s with
    | nil => exact absurd h (by simp [startsWithL])
    | cons c cs =>
      simp only [startsWithL, Bool.and_eq_true] at h
      simpa using ih cs h.2

theorem startsWithCI_le : ∀ p s : List Char, startsWithCI p s = true → p.length ≤ s.length := by
  intro p
  induction p with
  | nil => intro s _; simp
  | cons a p ih =>
    intro s h
    cases s with
    | nil => exact absurd h (by simp [startsWithCI])
    | cons c cs =>
      simp only [startsWithCI, Bool.and_eq_true] at h
      simpa using ih cs h.2

theorem kw_bound (t : String) (ci : Bool) (w : List Char) (n : Nat)
    (h : matchLen (.kw t ci) w = some n) : n ≤ w.length := by
  unfold matchLen at h
  cases ci with
  | false =>
    by_cases hs : startsWithL t.data w = true
    · simp only [hs] at h
      injection h with h2
      rw [← h2]
      exact startsWithL_le t.data w hs
    · simp only [eq_false_of_ne_true hs] at h
      exact Option.noConfusion h
  | true =>
    by_cases hs : startsWithCI t.data w = true
    · simp only [hs] at h
      injection h with h2
      rw [← h2]
      exact startsWithCI_le t.data w hs
    · simp only [eq_false_of_ne_true hs] at h
      exact Option.noConfusion h

theorem boolLit_bound (w : List Char) (n : Nat) (h : matchLen .boolLitP w = some n) :
    n ≤ w.length := by
  unfold matchLen boolLitLen at h
  by_cases h4 : startsWithL ("true").data w = true
  · simp only [h4] at h
    injection h with h2
    rw [← h2]
    exact startsWithL_le ("true").data w h4
  · simp only [eq_false_of_ne_true h4] at h
    by_cases h5 : startsWithL ("false").data w = true
    · simp only [h5] at h
      injection h with h2
      rw [← h2]
      exact startsWithL_le ("false").data w h5
    · simp only [eq_false_of_ne_true h5] at h
      exact Option.noConfusion h

theorem scanEntries_none_all (w : List Char) (L : List TokenEntry)
    (h : scanEntries w L = none) : ∀ e ∈ L, matchLen e.pat w = none := by
  induction L with
  | nil => intro e he; exact absurd he (List.not_mem_nil e)
  | cons e es ih =>
    intro e' he'
    unfold scanEntries at h
    cases hm : matchLen e.pat w with
    | none =>
      simp only [hm] at h
      rcases List.mem_cons.mp he' with rfl | he2
      · exact hm
      · exact ih h e' he2
    | some n =>
      exfalso
      simp only [hm] at h
      cases hla : e.longerAlt with
      | false => simp [hla] at h
      | true =>
        simp only [hla, if_true, ite_true] at h
        cases hi : identLen w with
        | none => simp [hi] at h
        | some m =>
          simp only [hi] at h
          by_cases hlt : n < m
          · simp [hlt] at h
          · simp [hlt] at h

theorem scanEntries_spec (w : List Char) (hw : identLen w = some w.length) :
    ∀ L : List TokenEntry,
      (∀ e ∈ L,
        (e.longerAlt = true ∧ ¬(e.pat = TokenPat.identP) ∧
          (∀ n, matchLen e.pat w = some n → n ≤ w.length)) ∨
        matchLen e.pat w = none ∨
        (e.pat = TokenPat.identP ∧ e.name = "Identifier")) →
      scanEntries w L = none ∨
      scanEntries w L = some ("Identifier", w.length) ∨
      (∃ e ∈ L, ¬(e.pat = TokenPat.identP) ∧ matchLen e.pat w = some w.length ∧
        scanEntries w L = some (e.name, w.length)) := by
  intro L
  induction L with
  | nil => intro _; left; rfl
  | cons e es ih =>
    intro hyp
    have hL := hyp e (List.mem_cons_self e es)
    cases hm : matchLen e.pat w with
    | none =>
      have hrec := ih (fun x hx => hyp x (List.mem_cons_of_mem e hx))
      unfold scanEntries
      simp only [hm]
      rcases hrec with h1 | h2 | ⟨e', he', hni, hfm, hsc⟩
      · left; exact h1
      · right; left; exact h2
      · right; right; exact ⟨e', List.mem_cons_of_mem e he', hni, hfm, hsc⟩
    | some n =>
      unfold scanEntries
      simp only [hm]
      rcases hL with ⟨hla, hni, hbound⟩ | hnone | ⟨hip, hname⟩
      · rw [hla]
        simp only [if_true, ite_true, hw]
        by_cases hlt : n < w.length
        · rw [if_pos hlt]
          right; left; rfl
        · rw [if_neg hlt]
          right; right
          have hn : n = w.length := Nat.le_antisymm (hbound n hm) (Nat.not_lt.mp hlt)
          exact ⟨e, List.mem_cons_self e es, hni, by rw [← hn]; exact hm, by rw [hn]⟩
      · rw [hnone] at hm
        exact Option.noConfusion hm
      · have hn : n = w.length := by
          rw [hip] at hm
          show _ = _
          have : identLen w = some n := hm
          rw [hw] at this
          injection this with h2
          exact h2.symm
        cases hla : e.longerAlt with
        | false =>
          right; left
          rw [hname, hn]
          rfl
        | true =>
          simp only [if_true, ite_true, hw]
          rw [if_neg (by rw [hn]; exact Nat.lt_irrefl w.length)]
          right; left
          rw [hname, hn]

theorem punctPairs_heads :
    ∀ q ∈ punctPairs, ∃ d ds, q.2.data = d :: ds ∧ isIdStart d = false := by
  intro q hq
  fin_cases hq <;> exact ⟨_, _, rfl, by decide⟩

theorem allTokensM_good (w : List Char) (hw : isIdentWord w = true) :
    ∀ e ∈ allTokensM,
      (e.longerAlt = true ∧ ¬(e.pat = TokenPat.identP) ∧
        (∀ n, matchLen e.pat w = some n → n ≤ w.length)) ∨
      matchLen e.pat w = none ∨
      (e.pat = TokenPat.identP ∧ e.name = "Identifier") := by
  obtain ⟨c, rest, hwe⟩ : ∃ c rest, w = c :: rest := by
    cases w with
    | nil => exact absurd hw (by decide)
    | cons c rest => exact ⟨c, rest, rfl⟩
  subst hwe
  simp only [isIdentWord, Bool.and_eq_true] at hw
  have hc : isIdStart c = true := hw.1
  have hall : ∀ x ∈ c :: rest, isIdChar x = true := by
    intro x hx
    rcases List.mem_cons.mp hx with rfl | hx2
    · simp [isIdChar, hc]
    · exact List.all_eq_true.mp hw.2 x hx2
  intro e he
  simp only [allTokensM, List.mem_append] at he
  rcases he with ((((hl | hk) | hd) | hlit) | hid) | hp
  · simp only [leadEntries, List.mem_cons, List.not_mem_nil, or_false] at hl
    rcases hl with rfl | rfl | rfl | rfl | rfl
    · right; left; exact wsLen_ident_none c rest hc
    · right; left; exact lineCommentLen_ident_none c rest hc
    · right; left; exact blockCommentLen_ident_none c rest hc
    · right; left; exact punct_ident_none "->" c rest hc '-' ['>'] rfl (by decide)
    · right; left; exact punct_ident_none "::" c rest hc ':' [':'] rfl (by decide)
  · obtain ⟨p, _, rfl⟩ := List.mem_map.mp hk
    left
    exact ⟨rfl, fun h => TokenPat.noConfusion h, fun n hn => kw_bound p.2 false _ n hn⟩
  · simp only [dtEntries, List.mem_cons] at hd
    rcases hd with rfl | hd2
    · right; left
      exact dpLen_ident_none (c :: rest) hall
    · obtain ⟨p, _, rfl⟩ := List.mem_map.mp hd2
      left
      exact ⟨rfl, fun h => TokenPat.noConfusion h, fun n hn => kw_bound p.2 true _ n hn⟩
  · simp only [litEntries, List.mem_cons, List.not_mem_nil, or_false] at hlit
    rcases hlit with rfl | rfl | rfl | rfl
    · right; left; exact stringLitLen_ident_none c rest hc
    · right; left; exact numberLitLen_ident_none c rest hc
    · left
      exact ⟨rfl, fun h => TokenPat.noConfusion h, fun n hn => boolLit_bound _ n hn⟩
    · left
      exact ⟨rfl, fun h => TokenPat.noConfusion h, fun n hn => kw_bound "null" true _ n hn⟩
  · simp only [idEntries, List.mem_cons, List.not_mem_nil, or_false] at hid
    rcases hid with rfl | rfl
    · right; left; exact templateIdentLen_ident_none c rest hc
    · right; right; exact ⟨rfl, rfl⟩
  · obtain ⟨p, hpmem, he⟩ := List.mem_map.mp hp
    obtain ⟨d, ds, hds, hdf⟩ := punctPairs_heads p hpmem
    right; left
    rw [← he]
    exact punct_ident_none p.2 c rest hc d ds hds hdf

/-- C9 (amended): an identifier-shaped word that has some keyword or
data-type pattern as a proper-prefix match, and that is not itself the full
match of any non-identifier pattern, lexes as a single plain `Identifier`
token spanning the whole word — the `longer_alt` fallback declared on every
keyword and data-type token.  (The amendment excludes words that fully match
a longer keyword, such as `function`; see the counterexample.) -/
theorem keyword_prefix_lexes_identifier (w : String)
    (hw : isIdentWord w.data = true)
    (hkw : properPrefixKw w.data = true)
    (hfull : fullPatternMatch w.data = false) :
    nextToken w.data = some ("Identifier", w.data.length) := by
  have hid : identLen w.data = some w.data.length := identLen_full w.data hw
  have hgood := allTokensM_good w.data hw
  rcases scanEntries_spec w.data hid allTokensM hgood with hnone | hmid | ⟨e, he, hni, hfm, hsc⟩
  · exfalso
    have hmem : ({ name := "Identifier", pat := TokenPat.identP, longerAlt := false } :
        TokenEntry) ∈ allTokensM := by decide
    have hnm := scanEntries_none_all w.data allTokensM hnone _ hmem
    rw [show matchLen TokenPat.identP w.data = identLen w.data from rfl, hid] at hnm
    exact Option.noConfusion hnm
  · exact hmid
  · exfalso
    have htrue : allTokensM.any
        (fun e => !(e.pat == TokenPat.identP) && matchLen e.pat w.data == some w.data.length) =
          true := by
      refine List.any_eq_true.mpr ⟨e, he, ?_⟩
      simp [hfm, hni]
    rw [show fullPatternMatch w.data = allTokensM.any
      (fun e => !(e.pat == TokenPat.identP) && matchLen e.pat w.data == some w.data.length)
      from rfl] at hfull
    rw [htrue] at hfull
    exact Bool.noConfusion hfull

/-- C9: counterexample to the claim as stated — the keyword `func` is a
proper prefix of the longer identifier-shaped word `function`, yet the lexer
classifies `function` as the keyword token `Function`, not as a plain
`Identifier` (the word fully matches the longer keyword pattern, which is
tried first and is not reclassified because the identifier match is not
strictly longer). -/
theorem keyword_full_match_stays_keyword :
    nextToken ("function").data = some ("Function", 8) ∧
    ({ name := "Func", pat := TokenPat.kw "func" false, longerAlt := true } :
      TokenEntry) ∈ kwEntries ∧
    ("function" : String) = "func" ++ "tion" ∧
    isIdentWord ("function").data = true ∧
    ¬(("Function" : String) = "Identifier") := by
  refine ⟨by decide, by decide, rfl, by decide, by decide⟩

theorem keyword_prefix_lexes_identifier_witness :
    isIdentWord ("indexer").data = true ∧
    properPrefixKw ("indexer").data = true ∧
    fullPatternMatch ("indexer").data = false ∧
    nextToken ("indexer").data = some ("Identifier", ("indexer").data.length) :=
  ⟨by decide, by decide, by decide,
    keyword_prefix_lexes_identifier "indexer" (by decide) (by decide) (by decide)⟩

end GSQL

